import Mathlib

/-!
# SLD_encoder: quadrature decoder, step accumulator and delta layer

Shallow embedding of `src/SLD_encoder.hpp`.

* `uint8_t` fields are `Nat` (values below 256), `int8_t` values are `Int`
  (values in -128..127); every store of an `int` expression into an `int8_t`
  goes through `wrap8`, the two's-complement narrowing.
* `unsigned long` is 32 bits wide (`now - _lastTime` is taken modulo 2^32).
* The hardware reads (`digitalRead`, `millis`) are inputs of the operations:
  `tick` and `begin` receive the sampled code `AB`, `getAcceleratedDelta`
  receives the clock value `now`.
* `noInterrupts()` / `interrupts()` have no sequential effect and are omitted.
-/

namespace SLD

/-- Engine selection, `enum EncoderMode`. -/
inductive EncoderMode where
  | MODE_STANDARD
  | MODE_BUXTON_FULL
  | MODE_BUXTON_HALF
  deriving DecidableEq, Repr

open EncoderMode

/-- Value of `#define R_START 0x0`. -/
def R_START : Nat := 0x0

/-- Value of `#define DIR_CW 0x10`. -/
def DIR_CW : Nat := 0x10

/-- Value of `#define DIR_CCW 0x20`. -/
def DIR_CCW : Nat := 0x20

/-- Table `SLD_STD_STATES[16]`, indexed by `(old << 2) | new`. -/
def SLD_STD_STATES : List Int :=
  [0, 1, -1, 0, -1, 0, 0, 1, 1, 0, 0, -1, 0, -1, 1, 0]

/-- Table `SLD_BT_FULL[7][4]`. -/
def SLD_BT_FULL : List (List Nat) :=
  [[0, 2, 4, 0], [3, 0, 1, 0 ||| DIR_CCW], [3, 2, 0, 0], [3, 2, 1, 0],
   [6, 0, 4, 0], [6, 5, 0, 0 ||| DIR_CW], [6, 5, 4, 0]]

/-- Table `SLD_BT_HALF[6][4]`. -/
def SLD_BT_HALF : List (List Nat) :=
  [[3, 2, 1, 0], [3 ||| DIR_CW, 0, 1, 0], [3 ||| DIR_CCW, 2, 0, 0],
   [3, 5, 4, 0], [3, 3, 4, 0 ||| DIR_CCW], [3, 5, 3, 0 ||| DIR_CW]]

/-- Read `table[row][col]` of a two-dimensional table. An index outside the
table is undefined behaviour in the C++ source; the model reads 0 there. -/
def cell (table : List (List Nat)) (row col : Nat) : Nat :=
  (table.getD row []).getD col 0

/-- Narrowing of an `int` value to `int8_t` (two's complement, modulo 256). -/
def wrap8 (x : Int) : Int := (x + 128) % 256 - 128

/-- Unsigned 32-bit subtraction `now - last` of two `unsigned long` values. -/
def subU32 (now last : Nat) : Nat := (now + 2 ^ 32 - last % 2 ^ 32) % 2 ^ 32

/-- The data members of `class SLDencodeur`. -/
structure SLDencodeur where
  _pinA : Nat
  _pinB : Nat
  _steps : Nat
  _old_AB : Nat
  _state : Nat
  _mode : EncoderMode
  _count : Int
  _lastTime : Nat
  deriving DecidableEq, Repr

/-- Constructor `SLDencodeur(pinA, pinB, mode, stepsPerClick)`; the member
initialisers give `_count = 0` and `_lastTime = 0`. -/
def SLDencodeur.new (pinA pinB : Nat) (mode : EncoderMode) (stepsPerClick : Nat) :
    SLDencodeur :=
  let s : SLDencodeur :=
    { _pinA := pinA, _pinB := pinB, _steps := stepsPerClick, _mode := mode,
      _old_AB := 0, _state := R_START, _count := 0, _lastTime := 0 }
  if s._mode ≠ MODE_STANDARD then { s with _steps := 1 } else s

/-- Method `begin()`; `AB` is the value of
`(digitalRead(_pinB) << 1) | digitalRead(_pinA)` at the call. -/
def SLDencodeur.begin (s : SLDencodeur) (AB : Nat) : SLDencodeur :=
  { s with _old_AB := AB, _state := R_START }

/-- Method `tick()`; `AB` is the value of
`(digitalRead(_pinB) << 1) | digitalRead(_pinA)` read at its first line. -/
def SLDencodeur.tick (s : SLDencodeur) (AB : Nat) : SLDencodeur :=
  if s._mode = MODE_STANDARD then
    if AB ≠ s._old_AB then
      { s with
        _count := wrap8 (s._count + SLD_STD_STATES.getD (((s._old_AB <<< 2) ||| AB) &&& 0x0F) 0),
        _old_AB := AB }
    else s
  else
    let res : Nat :=
      if s._mode = MODE_BUXTON_FULL then cell SLD_BT_FULL (s._state &&& 0x0F) AB
      else cell SLD_BT_HALF (s._state &&& 0x0F) AB
    let s1 : SLDencodeur := { s with _state := res &&& 0x0F }
    if res &&& DIR_CW ≠ 0 then { s1 with _count := wrap8 (s1._count + 1) }
    else if res &&& DIR_CCW ≠ 0 then { s1 with _count := wrap8 (s1._count - 1) }
    else s1

/-- Method `getDeltaBrut()`: returned value and state after the call.
`abs(val) >= _steps` and `val / _steps` are computed in `int`; the division
truncates toward zero. For `_steps = 0` the C++ division is undefined. -/
def SLDencodeur.getDeltaBrut (s : SLDencodeur) : Int × SLDencodeur :=
  let val : Int := s._count
  if |val| ≥ (s._steps : Int) then
    (wrap8 (Int.tdiv val (s._steps : Int)), { s with _count := 0 })
  else (0, s)

/-- Method `getDelta()`. -/
def SLDencodeur.getDelta (s : SLDencodeur) : Int × SLDencodeur :=
  let r := s.getDeltaBrut
  let val : Int := r.1
  (if val > 0 then 1 else if val < 0 then -1 else 0, r.2)

/-- Method `getAcceleratedDelta()`; `now` is the value `millis()` returns
when it is called. The products are computed in `int` and narrowed to the
`int8_t` return type. -/
def SLDencodeur.getAcceleratedDelta (s : SLDencodeur) (now : Nat) : Int × SLDencodeur :=
  let r := s.getDeltaBrut
  let delta : Int := r.1
  if delta ≠ 0 then
    let dt : Nat := subU32 now r.2._lastTime
    let s2 : SLDencodeur := { r.2 with _lastTime := now }
    if dt < 25 then (wrap8 (delta * 4), s2)
    else if dt < 60 then (wrap8 (delta * 2), s2)
    else (delta, s2)
  else (delta, r.2)

/-- Method `reset()`. -/
def SLDencodeur.reset (s : SLDencodeur) : SLDencodeur :=
  { s with _count := 0, _state := R_START }

/-- One producer edge followed by one consumer poll: `tick` with the code
`AB`, then `getDeltaBrut`. -/
def tickThenPoll (s : SLDencodeur) (AB : Nat) : Int × SLDencodeur :=
  (s.tick AB).getDeltaBrut

/-- Drive the codes in order, polling `getDeltaBrut` after every `tick`;
returns the polled values in order and the final state. -/
def drivePolled : SLDencodeur → List Nat → List Int × SLDencodeur
  | s, [] => ([], s)
  | s, AB :: rest =>
    let r := tickThenPoll s AB
    let t := drivePolled r.2 rest
    (r.1 :: t.1, t.2)

/-- Drive the codes in order without polling. -/
def drive (s : SLDencodeur) (codes : List Nat) : SLDencodeur :=
  codes.foldl SLDencodeur.tick s

/-- Change of `_count` made by each `tick` of a driven sequence, in order. -/
def countDeltas : SLDencodeur → List Nat → List Int
  | _, [] => []
  | s, AB :: rest => ((s.tick AB)._count - s._count) :: countDeltas (s.tick AB) rest

/-- A freshly constructed and initialised instance: constructor, then `begin`
sampling the code `AB`. -/
def fresh (pinA pinB : Nat) (mode : EncoderMode) (stepsPerClick AB : Nat) : SLDencodeur :=
  (SLDencodeur.new pinA pinB mode stepsPerClick).begin AB

/-- A call of the producer (`tick` with the sampled code) or of the consumer
(`getDeltaBrut`). -/
inductive Op where
  | decode (AB : Nat)
  | extractRaw
  deriving DecidableEq, Repr

/-- Apply a sequence of calls in order; returns the values the `getDeltaBrut`
calls return, in order. -/
def runOps : SLDencodeur → List Op → List Int
  | _, [] => []
  | s, Op.decode AB :: rest => runOps (s.tick AB) rest
  | s, Op.extractRaw :: rest => s.getDeltaBrut.1 :: runOps s.getDeltaBrut.2 rest

/-- Two instances agree on everything the decoder and the accumulator read:
mode, divisor, counter, and the engine memory of the selected mode
(`_old_AB` in Standard mode, `_state` in the Buxton modes). -/
def SameCore (s t : SLDencodeur) : Prop :=
  s._mode = t._mode ∧ s._steps = t._steps ∧ s._count = t._count ∧
  (s._mode = MODE_STANDARD → s._old_AB = t._old_AB) ∧
  (s._mode ≠ MODE_STANDARD → s._state = t._state)

/-- A call of any public operation: `begin` and `tick` with the code they
sample, `getAcceleratedDelta` with the clock value it reads. -/
inductive Call where
  | begin (AB : Nat)
  | tick (AB : Nat)
  | getDeltaBrut
  | getDelta
  | getAcceleratedDelta (now : Nat)
  | reset
  deriving DecidableEq, Repr

/-- State after one call. -/
def applyCall (s : SLDencodeur) : Call → SLDencodeur
  | Call.begin AB => s.begin AB
  | Call.tick AB => s.tick AB
  | Call.getDeltaBrut => s.getDeltaBrut.2
  | Call.getDelta => s.getDelta.2
  | Call.getAcceleratedDelta now => (s.getAcceleratedDelta now).2
  | Call.reset => s.reset

/-- State after a sequence of calls, in order. -/
def runCalls (s : SLDencodeur) (calls : List Call) : SLDencodeur :=
  calls.foldl applyCall s

/-- The sampled code of a `begin` or `tick` call is a two-bit value. -/
def callOK : Call → Bool
  | Call.begin AB => decide (AB < 4)
  | Call.tick AB => decide (AB < 4)
  | _ => true

/-- The table the Buxton branch of `tick` selects:
`(_mode == MODE_BUXTON_FULL) ? SLD_BT_FULL : SLD_BT_HALF`. -/
def buxtonTable (m : EncoderMode) : List (List Nat) :=
  if m = MODE_BUXTON_FULL then SLD_BT_FULL else SLD_BT_HALF

/-- The value `res` the Buxton branch of `tick` reads for the automaton state
`st` and the code `AB`. -/
def buxtonRes (m : EncoderMode) (st AB : Nat) : Nat :=
  cell (buxtonTable m) (st &&& 0x0F) AB

/-- Number of rows of the selected Buxton table. -/
def buxtonRows (m : EncoderMode) : Nat :=
  (buxtonTable m).length

/-- The cell read for state `st` and code `AB` carries a direction flag
(`res & DIR_CW` or `res & DIR_CCW` is nonzero). -/
def emitsFlag (m : EncoderMode) (st AB : Nat) : Bool :=
  (buxtonRes m st AB &&& DIR_CW != 0) || (buxtonRes m st AB &&& DIR_CCW != 0)

/-- Some `tick` of the driven sequence reads a cell that carries a direction
flag. -/
def traversesFlag : SLDencodeur → List Nat → Bool
  | _, [] => false
  | s, AB :: rest => emitsFlag s._mode s._state AB || traversesFlag (s.tick AB) rest

/-- The automaton state `res & 0x0F` that `tick` stores for state `st` and
code `AB`. -/
def nextState (m : EncoderMode) (st AB : Nat) : Nat :=
  buxtonRes m st AB &&& 0x0F

/-- Number of `tick` calls of the driven sequence that change `_count`. -/
def changes : SLDencodeur → List Nat → Nat
  | _, [] => 0
  | s, AB :: rest =>
    (if (s.tick AB)._count ≠ s._count then 1 else 0) + changes (s.tick AB) rest

/-- No flag cell is read within `k` ticks from row `st`, whatever sequence of
the two codes `a` and `b` is driven. -/
def quietFor (m : EncoderMode) (a b : Nat) : Nat → Nat → Bool
  | 0, _ => true
  | k + 1, st =>
    !emitsFlag m st a && !emitsFlag m st b &&
      quietFor m a b k (nextState m st a) && quietFor m a b k (nextState m st b)

/-- Check over all code pairs and all rows below `rows`: a row that is quiet
for 4 ticks reads no flag cell and steps to rows that are quiet for 4 ticks,
and a row reached through a flag cell is quiet for 4 ticks. -/
def bounceCheck (m : EncoderMode) (rows : Nat) : Bool :=
  (List.range 4).all fun a => (List.range 4).all fun b => (List.range rows).all fun st =>
    (!quietFor m a b 4 st ||
      (!emitsFlag m st a && !emitsFlag m st b &&
        quietFor m a b 4 (nextState m st a) && quietFor m a b 4 (nextState m st b))) &&
    (!emitsFlag m st a || quietFor m a b 4 (nextState m st a)) &&
    (!emitsFlag m st b || quietFor m a b 4 (nextState m st b))

/-- Quadrature phase of a code: 00, 01, 11, 10 are the phases 0, 1, 2, 3. -/
def phase (c : Nat) : Int :=
  ([0, 1, 3, 2] : List Int).getD c 0

/-- Every code of the sequence is in 0..3 and differs from its predecessor
(`p` for the first) in at most one bit. -/
def glitchFree : Nat → List Nat → Bool
  | _, [] => true
  | p, c :: rest => decide (c < 4) && decide (p ^^^ c ≠ 3) && glitchFree c rest

/-- The code read when the two signal lines are exchanged: bit 0 and bit 1
swapped (00->00, 01->10, 10->01, 11->11). -/
def mirror (c : Nat) : Nat :=
  ((c &&& 1) <<< 1) ||| ((c >>> 1) &&& 1)

/-- The row that plays, for the exchanged lines, the part row `st` plays for
the original lines: in the full-step table rows 1/5, 2/4 and 3/6 are paired,
in the half-step table rows 1/2 and 4/5. -/
def mirrorState (m : EncoderMode) (st : Nat) : Nat :=
  match m with
  | MODE_STANDARD => st
  | MODE_BUXTON_FULL => ([0, 5, 4, 6, 2, 1, 3] : List Nat).getD st 0
  | MODE_BUXTON_HALF => ([0, 2, 1, 3, 5, 4] : List Nat).getD st 0

/-- The engine memory of `t` is the mirror image of the engine memory of `s`:
same mode, mirrored `_old_AB` in Standard mode, paired row in the Buxton
modes. -/
def MirrorEngine (s t : SLDencodeur) : Prop :=
  t._mode = s._mode ∧
  (s._mode = MODE_STANDARD → s._old_AB < 4 ∧ t._old_AB = mirror s._old_AB) ∧
  (s._mode ≠ MODE_STANDARD →
    s._state < buxtonRows s._mode ∧ t._state = mirrorState s._mode s._state)

/-- The counters `cs`, `ct` of two instances become `cs1`, `ct1` by opposite
steps: both keep their value, or one stores the `int8_t` narrowing of
`cs + d` and the other that of `ct - d`, with `d` among -1, 0, 1. -/
def OppositeStep (cs ct cs1 ct1 : Int) : Prop :=
  (cs1 = cs ∧ ct1 = ct) ∨
  ∃ d : Int, -1 ≤ d ∧ d ≤ 1 ∧ cs1 = wrap8 (cs + d) ∧ ct1 = wrap8 (ct - d)

/-- No `tick` of the driven sequence overflows the counter: every stored value
differs from the previous one by at most 1. -/
def noOverflow (s : SLDencodeur) (codes : List Nat) : Bool :=
  (countDeltas s codes).all fun d => decide (-1 ≤ d) && decide (d ≤ 1)

/-! ## Arithmetic helpers -/

theorem wrap8_of_range (x : Int) (hlo : -128 ≤ x) (hhi : x ≤ 127) : wrap8 x = x := by
  unfold wrap8
  omega

theorem land15 (n : Nat) (h : n < 16) : n &&& 0x0F = n := by
  interval_cases n <;> rfl

theorem tdiv_eq_sign_mul (v : Int) (n : Nat) :
    Int.tdiv v (n : Int) = Int.sign v * ((v.natAbs / n : Nat) : Int) := by
  rcases v with m | m
  · rcases m with _ | m
    · simp
    · show Int.ofNat ((m + 1) / n) = 1 * Int.ofNat ((m + 1) / n)
      rw [Int.one_mul]
  · show -Int.ofNat ((m + 1) / n) = -1 * Int.ofNat ((m + 1) / n)
    omega

/-! ## Instances that agree on the decoder core behave alike -/

theorem sameCore_tick {s t : SLDencodeur} (h : SameCore s t) (AB : Nat) :
    SameCore (s.tick AB) (t.tick AB) := by
  rcases s with ⟨a1, b1, st1, o1, q1, m1, c1, l1⟩
  rcases t with ⟨a2, b2, st2, o2, q2, m2, c2, l2⟩
  obtain ⟨hm, hs, hc, ho, hq⟩ := h
  simp only at hm hs hc ho hq
  subst hm hs hc
  cases m1
  · have := ho rfl
    subst this
    unfold SLDencodeur.tick SameCore
    by_cases hne : AB = o1
    · simp [hne]
    · simp [hne]
  · have := hq (by decide)
    subst this
    unfold SLDencodeur.tick SameCore
    simp only [reduceCtorEq, if_false, if_true]
    split_ifs <;> simp
  · have := hq (by decide)
    subst this
    unfold SLDencodeur.tick SameCore
    simp only [reduceCtorEq, if_false, if_true]
    split_ifs <;> simp

theorem sameCore_getDeltaBrut {s t : SLDencodeur} (h : SameCore s t) :
    s.getDeltaBrut.1 = t.getDeltaBrut.1 ∧ SameCore s.getDeltaBrut.2 t.getDeltaBrut.2 := by
  obtain ⟨hm, hs, hc, ho, hq⟩ := h
  unfold SLDencodeur.getDeltaBrut
  simp only [← hs, ← hc]
  split_ifs
  · exact ⟨rfl, hm, rfl, rfl, ho, hq⟩
  · exact ⟨rfl, hm, hs, hc, ho, hq⟩

theorem sameCore_drivePolled {s t : SLDencodeur} (h : SameCore s t) (codes : List Nat) :
    (drivePolled s codes).1 = (drivePolled t codes).1 := by
  induction codes generalizing s t with
  | nil => rfl
  | cons AB rest ih =>
    have h1 := sameCore_getDeltaBrut (sameCore_tick h AB)
    simp only [drivePolled, tickThenPoll]
    rw [h1.1, ih h1.2]

theorem sameCore_runOps {s t : SLDencodeur} (h : SameCore s t) (ops : List Op) :
    runOps s ops = runOps t ops := by
  induction ops generalizing s t with
  | nil => rfl
  | cons op rest ih =>
    cases op with
    | decode AB =>
      simp only [runOps]
      exact ih (sameCore_tick h AB)
    | extractRaw =>
      simp only [runOps]
      rw [(sameCore_getDeltaBrut h).1, ih (sameCore_getDeltaBrut h).2]

/-! ## Step accumulator -/

/-- C1. With `_steps ≥ 1` and `_count` an `int8_t` value `v`: when
`|v| ≥ _steps`, `getDeltaBrut` returns `v / _steps` truncated toward zero,
which is the sign of `v` times the natural quotient `|v| / _steps`, and the
state with `_count` zeroed and every other field as before; otherwise it
returns 0 and the state unchanged. -/
theorem getDeltaBrut_spec (s : SLDencodeur) (hs : 1 ≤ s._steps)
    (hlo : -128 ≤ s._count) (hhi : s._count ≤ 127) :
    (s._steps ≤ s._count.natAbs →
      s.getDeltaBrut = (Int.tdiv s._count (s._steps : Int), { s with _count := 0 }) ∧
      Int.tdiv s._count (s._steps : Int) =
        Int.sign s._count * ((s._count.natAbs / s._steps : Nat) : Int)) ∧
    (s._count.natAbs < s._steps → s.getDeltaBrut = (0, s)) := by
  have habs : |s._count| = (s._count.natAbs : Int) := (Int.natCast_natAbs _).symm
  constructor
  · intro h
    have hge : |s._count| ≥ (s._steps : Int) := by
      rw [habs]; exact_mod_cast h
    have hq : s._count.natAbs / s._steps ≤ s._count.natAbs := Nat.div_le_self _ _
    have hn : s._count.natAbs ≤ 128 := by omega
    have hr : wrap8 (Int.tdiv s._count (s._steps : Int)) =
        Int.tdiv s._count (s._steps : Int) := by
      rw [tdiv_eq_sign_mul]
      generalize s._count.natAbs / s._steps = q at hq
      apply wrap8_of_range
      · rcases Int.lt_trichotomy s._count 0 with h0 | h0 | h0
        · rw [Int.sign_eq_neg_one_of_neg h0]; omega
        · rw [h0]; simp
        · rw [Int.sign_eq_one_of_pos h0]; omega
      · rcases Int.lt_trichotomy s._count 0 with h0 | h0 | h0
        · rw [Int.sign_eq_neg_one_of_neg h0]; omega
        · rw [h0]; simp
        · rw [Int.sign_eq_one_of_pos h0]; omega
    refine ⟨?_, tdiv_eq_sign_mul _ _⟩
    simp only [SLDencodeur.getDeltaBrut, if_pos hge, hr]
  · intro h
    have hlt : ¬ (|s._count| ≥ (s._steps : Int)) := by
      rw [habs]; intro hc
      have : s._steps ≤ s._count.natAbs := by exact_mod_cast hc
      omega
    simp only [SLDencodeur.getDeltaBrut, if_neg hlt]

/-- Witness for C1: `_count = -9`, `_steps = 4` returns -2 and zeroes the counter. -/
theorem getDeltaBrut_spec_witness :
    (1 ≤ 4 ∧ (-128 : Int) ≤ -9 ∧ (-9 : Int) ≤ 127 ∧ 4 ≤ (-9 : Int).natAbs) ∧
    (SLDencodeur.mk 2 3 4 1 0 MODE_STANDARD (-9) 7).getDeltaBrut =
      (-2, SLDencodeur.mk 2 3 4 1 0 MODE_STANDARD 0 7) :=
  ⟨by decide,
    ((getDeltaBrut_spec (SLDencodeur.mk 2 3 4 1 0 MODE_STANDARD (-9) 7)
      (by decide) (by decide) (by decide)).1 (by decide)).1⟩

/-! ## Buxton full-step engine -/

/-- C2, the claim as stated fails: a fresh full-step instance driven
00->01->11->10->00 polls 0 after the final code as well, and the reverse
sequence polls 0 too, so neither `[0, 0, 0, 1]` nor `[0, 0, 0, -1]` is
observed. -/
theorem buxtonFull_cycle_from_00_counterexample :
    (drivePolled (fresh 2 3 MODE_BUXTON_FULL 1 0) [1, 3, 2, 0]).1 = [0, 0, 0, 0] ∧
    (drivePolled (fresh 2 3 MODE_BUXTON_FULL 1 0) [1, 3, 2, 0]).1 ≠ [0, 0, 0, 1] ∧
    (drivePolled (fresh 2 3 MODE_BUXTON_FULL 1 0) [2, 3, 1, 0]).1 = [0, 0, 0, 0] ∧
    (drivePolled (fresh 2 3 MODE_BUXTON_FULL 1 0) [2, 3, 1, 0]).1 ≠ [0, 0, 0, -1] := by
  decide

theorem fresh_buxton_sameCore (pinA pinB stepsPerClick AB : Nat) (mode : EncoderMode)
    (hm : mode ≠ MODE_STANDARD) :
    SameCore (fresh pinA pinB mode stepsPerClick AB) (fresh 0 0 mode 1 0) := by
  cases mode
  · exact absurd rfl hm
  · simp [fresh, SLDencodeur.new, SLDencodeur.begin, SameCore]
  · simp [fresh, SLDencodeur.new, SLDencodeur.begin, SameCore]

/-- C2, amended. For every freshly initialised full-step instance (any pins,
any constructor divisor, any initial sample): the sequence 00->01->11->10->00
and its reverse poll 0 at every extraction, the last included; the cycle
counted from the 11 position, 11->10->00->01->11, polls 0 at the three
intermediate extractions and +1 after the final code, and its reverse
11->01->00->10->11 polls -1 after the final code. -/
theorem buxtonFull_cycle_from_11 (pinA pinB stepsPerClick AB : Nat) :
    (drivePolled (fresh pinA pinB MODE_BUXTON_FULL stepsPerClick AB) [1, 3, 2, 0]).1
      = [0, 0, 0, 0] ∧
    (drivePolled (fresh pinA pinB MODE_BUXTON_FULL stepsPerClick AB) [2, 3, 1, 0]).1
      = [0, 0, 0, 0] ∧
    (drivePolled (fresh pinA pinB MODE_BUXTON_FULL stepsPerClick AB) [2, 0, 1, 3]).1
      = [0, 0, 0, 1] ∧
    (drivePolled (fresh pinA pinB MODE_BUXTON_FULL stepsPerClick AB) [1, 0, 2, 3]).1
      = [0, 0, 0, -1] := by
  have h := fresh_buxton_sameCore pinA pinB stepsPerClick AB MODE_BUXTON_FULL (by decide)
  rw [sameCore_drivePolled h, sameCore_drivePolled h, sameCore_drivePolled h,
    sameCore_drivePolled h]
  decide

/-! ## Standard engine -/

theorem tick_standard_ne (s : SLDencodeur) (hm : s._mode = MODE_STANDARD) (AB : Nat)
    (h : AB ≠ s._old_AB) :
    s.tick AB =
      { s with
        _count := wrap8 (s._count + SLD_STD_STATES.getD (((s._old_AB <<< 2) ||| AB) &&& 0x0F) 0),
        _old_AB := AB } := by
  simp [SLDencodeur.tick, hm, h]

theorem tick_standard_same (s : SLDencodeur) (hm : s._mode = MODE_STANDARD) :
    s.tick s._old_AB = s := by
  simp [SLDencodeur.tick, hm]

theorem tick_old_AB (s : SLDencodeur) (hm : s._mode = MODE_STANDARD) (AB : Nat) :
    (s.tick AB)._old_AB = AB ∧ (s.tick AB)._mode = MODE_STANDARD := by
  by_cases h : AB = s._old_AB
  · subst h; rw [tick_standard_same s hm]; exact ⟨rfl, hm⟩
  · rw [tick_standard_ne s hm AB h]; exact ⟨rfl, hm⟩

theorem std_table_oneBit :
    ∀ p < 4, ∀ c < 4, (p ^^^ c = 1 ∨ p ^^^ c = 2) →
      SLD_STD_STATES.getD (((p <<< 2) ||| c) &&& 0x0F) 0 = 1 ∨
      SLD_STD_STATES.getD (((p <<< 2) ||| c) &&& 0x0F) 0 = -1 := by
  decide

theorem std_table_twoBit :
    ∀ p < 4, ∀ c < 4, p ^^^ c = 3 →
      SLD_STD_STATES.getD (((p <<< 2) ||| c) &&& 0x0F) 0 = 0 := by
  decide

/-- C3. Standard mode with `_old_AB = 00`: the legal cycle 01, 11, 10, 00
changes `_count` by +1 at each of the four calls (net +4) and the reverse
cycle 10, 11, 01, 00 by -1 at each call (net -4), as long as the counter
stays inside the `int8_t` range; with `_steps = 4` and `_count = 0` the
following `getDeltaBrut` returns +1, respectively -1. -/
theorem standard_cycle (s : SLDencodeur) (hm : s._mode = MODE_STANDARD) (ho : s._old_AB = 0) :
    (-128 ≤ s._count → s._count + 4 ≤ 127 →
      countDeltas s [1, 3, 2, 0] = [1, 1, 1, 1] ∧
      (drive s [1, 3, 2, 0])._count = s._count + 4) ∧
    (-128 ≤ s._count - 4 → s._count ≤ 127 →
      countDeltas s [2, 3, 1, 0] = [-1, -1, -1, -1] ∧
      (drive s [2, 3, 1, 0])._count = s._count - 4) ∧
    (s._count = 0 → s._steps = 4 →
      (drive s [1, 3, 2, 0]).getDeltaBrut.1 = 1 ∧
      (drive s [2, 3, 1, 0]).getDeltaBrut.1 = -1) := by
  rcases s with ⟨a, b, st, o, q, m, c, l⟩
  simp only at hm ho
  subst hm ho
  refine ⟨fun h1 h2 => ?_, fun h1 h2 => ?_, fun h1 h2 => ?_⟩
  · simp only at h1 h2
    simp +decide [countDeltas, drive, tick_standard_ne, land15, SLD_STD_STATES]
    unfold wrap8
    omega
  · simp only at h1 h2
    simp +decide [countDeltas, drive, tick_standard_ne, land15, SLD_STD_STATES]
    unfold wrap8
    omega
  · simp only at h1 h2
    subst h1 h2
    simp +decide [drive, tick_standard_ne, land15, SLD_STD_STATES, SLDencodeur.getDeltaBrut]

/-- Witness for C3 on the instance `SLDencodeur(2, 3, MODE_STANDARD, 4)` sampled at 00. -/
theorem standard_cycle_witness :
    (countDeltas (SLDencodeur.mk 2 3 4 0 0 MODE_STANDARD 0 0) [1, 3, 2, 0] = [1, 1, 1, 1] ∧
      (drive (SLDencodeur.mk 2 3 4 0 0 MODE_STANDARD 0 0) [1, 3, 2, 0])._count = 0 + 4) ∧
    (countDeltas (SLDencodeur.mk 2 3 4 0 0 MODE_STANDARD 0 0) [2, 3, 1, 0] = [-1, -1, -1, -1] ∧
      (drive (SLDencodeur.mk 2 3 4 0 0 MODE_STANDARD 0 0) [2, 3, 1, 0])._count = 0 - 4) ∧
    ((drive (SLDencodeur.mk 2 3 4 0 0 MODE_STANDARD 0 0) [1, 3, 2, 0]).getDeltaBrut.1 = 1 ∧
      (drive (SLDencodeur.mk 2 3 4 0 0 MODE_STANDARD 0 0) [2, 3, 1, 0]).getDeltaBrut.1 = -1) :=
  ⟨(standard_cycle (SLDencodeur.mk 2 3 4 0 0 MODE_STANDARD 0 0) rfl rfl).1
      (by decide) (by decide),
    (standard_cycle (SLDencodeur.mk 2 3 4 0 0 MODE_STANDARD 0 0) rfl rfl).2.1
      (by decide) (by decide),
    (standard_cycle (SLDencodeur.mk 2 3 4 0 0 MODE_STANDARD 0 0) rfl rfl).2.2 rfl rfl⟩

theorem drive_replicate_same (s : SLDencodeur) (hm : s._mode = MODE_STANDARD) (n : Nat) :
    drive s (List.replicate n s._old_AB) = s := by
  induction n with
  | zero => rfl
  | succ k ih =>
    simp only [drive, List.replicate_succ, List.foldl_cons] at ih ⊢
    rw [tick_standard_same s hm]
    exact ih

/-- C4. Standard mode, previous code `p = _old_AB` and new code `c`, both in
0..3, `_count` an `int8_t` value. `tick` stores `c` as `_old_AB`. When `p` and
`c` differ in exactly one bit the counter takes the `int8_t` increment or
decrement, which is a change of exactly +1 or -1 whenever the counter is not
at the limit of its range; when they differ in both bits, or are equal, the
counter keeps its value. When `c = p` the whole state is unchanged, and
sending `c` any number of times (at least once) equals sending it once. -/
theorem tick_standard_spec (s : SLDencodeur) (hm : s._mode = MODE_STANDARD)
    (hp : s._old_AB < 4) (hlo : -128 ≤ s._count) (hhi : s._count ≤ 127)
    (c : Nat) (hc : c < 4) :
    (s.tick c)._old_AB = c ∧
    ((s._old_AB ^^^ c = 1 ∨ s._old_AB ^^^ c = 2) →
      ((s.tick c)._count = wrap8 (s._count + 1) ∨ (s.tick c)._count = wrap8 (s._count - 1)) ∧
      (-128 < s._count → s._count < 127 →
        (s.tick c)._count - s._count = 1 ∨ (s.tick c)._count - s._count = -1)) ∧
    ((s._old_AB ^^^ c = 3 ∨ c = s._old_AB) → (s.tick c)._count = s._count) ∧
    (c = s._old_AB → s.tick c = s) ∧
    (∀ n : Nat, drive s (List.replicate (n + 1) c) = s.tick c) := by
  refine ⟨(tick_old_AB s hm c).1, ?_, ?_, ?_, ?_⟩
  · intro hx
    have hne : c ≠ s._old_AB := by
      intro h
      rw [h, Nat.xor_self] at hx
      omega
    have hcnt : (s.tick c)._count =
        wrap8 (s._count + SLD_STD_STATES.getD (((s._old_AB <<< 2) ||| c) &&& 0x0F) 0) := by
      rw [tick_standard_ne s hm c hne]
    rcases std_table_oneBit s._old_AB hp c hc hx with hd | hd
    · rw [hcnt, hd]
      refine ⟨Or.inl rfl, fun h1 h2 => Or.inl ?_⟩
      rw [wrap8_of_range _ (by omega) (by omega)]
      omega
    · rw [hcnt, hd]
      refine ⟨Or.inr rfl, fun h1 h2 => Or.inr ?_⟩
      rw [wrap8_of_range _ (by omega) (by omega)]
      omega
  · intro hx
    by_cases hne : c = s._old_AB
    · subst hne
      rw [tick_standard_same s hm]
    · rcases hx with hx | hx
      · rw [tick_standard_ne s hm c hne]
        simp only [std_table_twoBit s._old_AB hp c hc hx, Int.add_zero]
        exact wrap8_of_range _ hlo hhi
      · exact absurd hx hne
  · intro h
    subst h
    exact tick_standard_same s hm
  · intro n
    have h := drive_replicate_same (s.tick c) (tick_old_AB s hm c).2 n
    rw [(tick_old_AB s hm c).1] at h
    simpa [drive, List.replicate_succ] using h

/-- Witness for C4: previous code 00, new code 01, counter 5. -/
theorem tick_standard_spec_witness :
    ((SLDencodeur.mk 2 3 4 0 0 MODE_STANDARD 5 0).tick 1)._old_AB = 1 ∧
    ((SLDencodeur.mk 2 3 4 0 0 MODE_STANDARD 5 0).tick 1)._count - 5 = 1 ∧
    ((SLDencodeur.mk 2 3 4 0 0 MODE_STANDARD 5 0).tick 0)
      = SLDencodeur.mk 2 3 4 0 0 MODE_STANDARD 5 0 ∧
    drive (SLDencodeur.mk 2 3 4 0 0 MODE_STANDARD 5 0) (List.replicate (6 + 1) 1)
      = (SLDencodeur.mk 2 3 4 0 0 MODE_STANDARD 5 0).tick 1 :=
  have h := tick_standard_spec (SLDencodeur.mk 2 3 4 0 0 MODE_STANDARD 5 0) rfl
    (by decide) (by decide) (by decide)
  ⟨(h 1 (by decide)).1,
    (((h 1 (by decide)).2.1 (by decide)).2 (by decide) (by decide)).resolve_right (by decide),
    (h 0 (by decide)).2.2.2.1 rfl,
    (h 1 (by decide)).2.2.2.2 6⟩

/-! ## Delta and acceleration layer -/

theorem subU32_of_le (now last : Nat) (h1 : last ≤ now) (h2 : now < 2 ^ 32) :
    subU32 now last = now - last := by
  unfold subU32
  have h3 : last % 2 ^ 32 = last := Nat.mod_eq_of_lt (by omega)
  rw [h3]
  omega

theorem getDeltaBrut_lastTime (s : SLDencodeur) : s.getDeltaBrut.2._lastTime = s._lastTime := by
  unfold SLDencodeur.getDeltaBrut
  dsimp only
  split_ifs <;> rfl

/-- Scaling of `getAcceleratedDelta` where the product fits the `int8_t`
return type: with `d` the value `getDeltaBrut` returns and `elapsed` the
unsigned difference `now - _lastTime`, the result is 0 for `d = 0`, `4 * d`
for `elapsed < 25` and `-32 ≤ d ≤ 31`, `2 * d` for `25 ≤ elapsed < 60` and
`-64 ≤ d ≤ 63`, and `d` for `60 ≤ elapsed`. -/
theorem getAcceleratedDelta_scaled (s : SLDencodeur) (now : Nat) :
    (s.getDeltaBrut.1 = 0 → (s.getAcceleratedDelta now).1 = 0) ∧
    (s.getDeltaBrut.1 ≠ 0 → subU32 now s._lastTime < 25 →
      -32 ≤ s.getDeltaBrut.1 → s.getDeltaBrut.1 ≤ 31 →
      (s.getAcceleratedDelta now).1 = 4 * s.getDeltaBrut.1) ∧
    (s.getDeltaBrut.1 ≠ 0 → 25 ≤ subU32 now s._lastTime → subU32 now s._lastTime < 60 →
      -64 ≤ s.getDeltaBrut.1 → s.getDeltaBrut.1 ≤ 63 →
      (s.getAcceleratedDelta now).1 = 2 * s.getDeltaBrut.1) ∧
    (s.getDeltaBrut.1 ≠ 0 → 60 ≤ subU32 now s._lastTime →
      (s.getAcceleratedDelta now).1 = s.getDeltaBrut.1) := by
  have hl := getDeltaBrut_lastTime s
  refine ⟨fun h0 => ?_, fun h0 ht hlo hhi => ?_, fun h0 ht1 ht2 hlo hhi => ?_,
    fun h0 ht => ?_⟩
  · simp [SLDencodeur.getAcceleratedDelta, h0]
  · simp only [SLDencodeur.getAcceleratedDelta, hl, ne_eq, h0, not_false_eq_true, if_true, ht]
    rw [wrap8_of_range _ (by omega) (by omega)]
    omega
  · have ht3 : ¬ subU32 now s._lastTime < 25 := by omega
    simp only [SLDencodeur.getAcceleratedDelta, hl, ne_eq, h0, not_false_eq_true, if_true, ht2,
      ht3, if_false]
    rw [wrap8_of_range _ (by omega) (by omega)]
    omega
  · have ht3 : ¬ subU32 now s._lastTime < 25 := by omega
    have ht4 : ¬ subU32 now s._lastTime < 60 := by omega
    simp only [SLDencodeur.getAcceleratedDelta, hl, ne_eq, h0, not_false_eq_true, if_true,
      ht3, ht4, if_false]

/-- C5, failing input. Full-step instance with `_count = 32`, `_steps = 1`,
`_lastTime = 1000`, polled at `now = 1010`: `getDeltaBrut` would return
`d = 32`, the elapsed time is 10 (< 25), and `getAcceleratedDelta` returns
-128, not `4 * d = 128`; with `_count = 64` it returns 0; with `_count = 64`
and `now = 1040` (elapsed 40) it returns -128, not `2 * d = 128`. -/
theorem getAcceleratedDelta_overflow :
    (SLDencodeur.mk 2 3 1 0 0 MODE_BUXTON_FULL 32 1000).getDeltaBrut.1 = 32 ∧
    subU32 1010 1000 = 10 ∧
    (SLDencodeur.mk 2 3 1 0 0 MODE_BUXTON_FULL 32 1000).getAcceleratedDelta 1010
      = (-128, SLDencodeur.mk 2 3 1 0 0 MODE_BUXTON_FULL 0 1010) ∧
    ((SLDencodeur.mk 2 3 1 0 0 MODE_BUXTON_FULL 32 1000).getAcceleratedDelta 1010).1
      ≠ 4 * 32 ∧
    ((SLDencodeur.mk 2 3 1 0 0 MODE_BUXTON_FULL 64 1000).getAcceleratedDelta 1010).1 = 0 ∧
    ((SLDencodeur.mk 2 3 1 0 0 MODE_BUXTON_FULL 64 1000).getAcceleratedDelta 1040).1 = -128 := by
  decide

/-- C6. `getAcceleratedDelta` leaves the instance as `getDeltaBrut` does,
except that `_lastTime` becomes `now` when the raw delta is nonzero and keeps
its value when the raw delta is 0 (`getDeltaBrut` itself never touches
`_lastTime`); so `_lastTime` ends different from before exactly when the raw
delta is nonzero and the clock differs from the stored timestamp, and the
effect on `_count` is that of `getDeltaBrut`. -/
theorem getAcceleratedDelta_frame (s : SLDencodeur) (now : Nat) :
    (s.getAcceleratedDelta now).2 =
      { s.getDeltaBrut.2 with
        _lastTime := if s.getDeltaBrut.1 ≠ 0 then now else s._lastTime } ∧
    s.getDeltaBrut.2._lastTime = s._lastTime ∧
    (s.getAcceleratedDelta now).2._count = s.getDeltaBrut.2._count ∧
    ((s.getAcceleratedDelta now).2._lastTime ≠ s._lastTime ↔
      (s.getDeltaBrut.1 ≠ 0 ∧ now ≠ s._lastTime)) := by
  have hl := getDeltaBrut_lastTime s
  have key : (s.getAcceleratedDelta now).2 =
      { s.getDeltaBrut.2 with
        _lastTime := if s.getDeltaBrut.1 ≠ 0 then now else s._lastTime } := by
    unfold SLDencodeur.getAcceleratedDelta
    by_cases h0 : s.getDeltaBrut.1 = 0
    · simp only [ne_eq, h0, not_true_eq_false, if_false, ← hl]
    · simp only [ne_eq, h0, not_false_eq_true, if_true]
      split_ifs <;> rfl
  refine ⟨key, hl, ?_, ?_⟩
  · rw [key]
  · rw [key]
    by_cases h0 : s.getDeltaBrut.1 = 0
    · simp [h0]
    · simp [h0]

/-- C7. With `_steps ≥ 1`, `getDelta` returns the sign of the value
`getDeltaBrut` returns, a value among -1, 0, 1, and leaves the instance in
the state `getDeltaBrut` leaves it in. -/
theorem getDelta_spec (s : SLDencodeur) (_hs : 1 ≤ s._steps) :
    s.getDelta = (Int.sign s.getDeltaBrut.1, s.getDeltaBrut.2) ∧
    (s.getDelta.1 = -1 ∨ s.getDelta.1 = 0 ∨ s.getDelta.1 = 1) := by
  have h : s.getDelta = (Int.sign s.getDeltaBrut.1, s.getDeltaBrut.2) := by
    unfold SLDencodeur.getDelta
    rcases Int.lt_trichotomy s.getDeltaBrut.1 0 with h0 | h0 | h0
    · have h1 : ¬ s.getDeltaBrut.1 > 0 := by omega
      simp only [h1, h0, if_false, if_true, Int.sign_eq_neg_one_of_neg h0]
    · simp [h0]
    · simp only [gt_iff_lt, h0, if_true, Int.sign_eq_one_of_pos h0]
  refine ⟨h, ?_⟩
  rw [h]
  rcases Int.lt_trichotomy s.getDeltaBrut.1 0 with h0 | h0 | h0
  · exact Or.inl (Int.sign_eq_neg_one_of_neg h0)
  · exact Or.inr (Or.inl (by simp [h0]))
  · exact Or.inr (Or.inr (Int.sign_eq_one_of_pos h0))

/-- Witness for C7: `_count = -100`, `_steps = 1`; the raw delta is -100 and
the normalised delta is -1. -/
theorem getDelta_spec_witness :
    1 ≤ (SLDencodeur.mk 2 3 1 0 0 MODE_BUXTON_FULL (-100) 0)._steps ∧
    ((SLDencodeur.mk 2 3 1 0 0 MODE_BUXTON_FULL (-100) 0).getDelta =
      (Int.sign (SLDencodeur.mk 2 3 1 0 0 MODE_BUXTON_FULL (-100) 0).getDeltaBrut.1,
        (SLDencodeur.mk 2 3 1 0 0 MODE_BUXTON_FULL (-100) 0).getDeltaBrut.2) ∧
    ((SLDencodeur.mk 2 3 1 0 0 MODE_BUXTON_FULL (-100) 0).getDelta.1 = -1 ∨
      (SLDencodeur.mk 2 3 1 0 0 MODE_BUXTON_FULL (-100) 0).getDelta.1 = 0 ∨
      (SLDencodeur.mk 2 3 1 0 0 MODE_BUXTON_FULL (-100) 0).getDelta.1 = 1)) :=
  ⟨by decide, getDelta_spec (SLDencodeur.mk 2 3 1 0 0 MODE_BUXTON_FULL (-100) 0) (by decide)⟩

/-! ## Lifecycle: reset -/

/-- C8, the claim as stated fails in Standard mode. The instance
`SLDencodeur(2, 3, MODE_STANDARD, 1)`, initialised at 00 and then ticked with
01, remembers `_old_AB = 01`; after `reset` the calls `tick(01)`,
`getDeltaBrut()` return 0, while on a fresh instance of the same mode and
divisor initialised at 00 they return 1. -/
theorem reset_vs_fresh_counterexample :
    ((fresh 2 3 MODE_STANDARD 1 0).tick 1)._mode = MODE_STANDARD ∧
    ((fresh 2 3 MODE_STANDARD 1 0).tick 1)._steps = (fresh 2 3 MODE_STANDARD 1 0)._steps ∧
    runOps ((fresh 2 3 MODE_STANDARD 1 0).tick 1).reset [Op.decode 1, Op.extractRaw] = [0] ∧
    runOps (fresh 2 3 MODE_STANDARD 1 0) [Op.decode 1, Op.extractRaw] = [1] ∧
    runOps ((fresh 2 3 MODE_STANDARD 1 0).tick 1).reset [Op.decode 1, Op.extractRaw] ≠
      runOps (fresh 2 3 MODE_STANDARD 1 0) [Op.decode 1, Op.extractRaw] := by
  decide

/-- C8, amended. For every instance state `s` and every fresh instance of the
same mode and the same divisor whose initial sample, in Standard mode, equals
the `_old_AB` that `s` holds (no condition in the Buxton modes): every
sequence of `tick` and `getDeltaBrut` calls returns the same values after
`s.reset` as on the fresh instance. -/
theorem reset_sameAs_fresh (s : SLDencodeur) (pinA pinB stepsPerClick AB : Nat)
    (hsteps : (fresh pinA pinB s._mode stepsPerClick AB)._steps = s._steps)
    (hold : s._mode = MODE_STANDARD → AB = s._old_AB) (ops : List Op) :
    runOps s.reset ops = runOps (fresh pinA pinB s._mode stepsPerClick AB) ops := by
  apply sameCore_runOps
  rcases s with ⟨a, b, st, o, q, m, c, l⟩
  cases m
  · have h1 := hold rfl
    simp only [fresh, SLDencodeur.new, SLDencodeur.begin, ne_eq, not_true_eq_false,
      if_false] at hsteps
    subst h1 hsteps
    simp [fresh, SLDencodeur.new, SLDencodeur.begin, SLDencodeur.reset, SameCore]
  · simp only [fresh, SLDencodeur.new, SLDencodeur.begin, ne_eq, reduceCtorEq,
      not_false_eq_true, if_true] at hsteps
    subst hsteps
    simp [fresh, SLDencodeur.new, SLDencodeur.begin, SLDencodeur.reset, SameCore]
  · simp only [fresh, SLDencodeur.new, SLDencodeur.begin, ne_eq, reduceCtorEq,
      not_false_eq_true, if_true] at hsteps
    subst hsteps
    simp [fresh, SLDencodeur.new, SLDencodeur.begin, SLDencodeur.reset, SameCore]

/-- Witness for C8: a full-step instance stopped in the middle of a cycle
(state 5, counter 1) and then reset, against a fresh full-step instance, on
the cycle 10, 00, 01, 11 polled after every tick. -/
theorem reset_sameAs_fresh_witness :
    runOps (SLDencodeur.mk 2 3 1 3 5 MODE_BUXTON_FULL 1 40).reset
        [Op.decode 2, Op.extractRaw, Op.decode 0, Op.extractRaw,
          Op.decode 1, Op.extractRaw, Op.decode 3, Op.extractRaw] =
      runOps (fresh 7 8 MODE_BUXTON_FULL 4 3)
        [Op.decode 2, Op.extractRaw, Op.decode 0, Op.extractRaw,
          Op.decode 1, Op.extractRaw, Op.decode 3, Op.extractRaw] :=
  reset_sameAs_fresh (SLDencodeur.mk 2 3 1 3 5 MODE_BUXTON_FULL 1 40) 7 8 4 3
    (by decide) (by decide) _

/-- C9. `reset` sets `_count` to 0 and `_state` to row 0 (in every mode, the
Buxton modes included) and leaves `_mode`, `_steps`, `_old_AB`, `_lastTime`
and the pin numbers as they were. -/
theorem reset_frame (s : SLDencodeur) :
    s.reset._count = 0 ∧ s.reset._state = 0 ∧
    s.reset._mode = s._mode ∧ s.reset._steps = s._steps ∧
    s.reset._old_AB = s._old_AB ∧ s.reset._lastTime = s._lastTime ∧
    s.reset._pinA = s._pinA ∧ s.reset._pinB = s._pinB :=
  ⟨rfl, rfl, rfl, rfl, rfl, rfl, rfl, rfl⟩

/-! ## Buxton half-step engine -/

/-- C10, the claim as stated fails: a fresh half-step instance driven
00->01->11->10->00 polls 0 at the 11 passage and +1 only at the final 00
(net +1), while a fresh full-step instance polls 0 throughout (net 0). -/
theorem buxtonHalf_cycle_from_00_counterexample :
    (drivePolled (fresh 2 3 MODE_BUXTON_HALF 1 0) [1, 3, 2, 0]).1 = [0, 0, 0, 1] ∧
    (drivePolled (fresh 2 3 MODE_BUXTON_FULL 1 0) [1, 3, 2, 0]).1 = [0, 0, 0, 0] ∧
    ((drivePolled (fresh 2 3 MODE_BUXTON_HALF 1 0) [1, 3, 2, 0]).1).getD 1 0 = 0 ∧
    ((drivePolled (fresh 2 3 MODE_BUXTON_HALF 1 0) [1, 3, 2, 0]).1).sum ≠
      ((drivePolled (fresh 2 3 MODE_BUXTON_FULL 1 0) [1, 3, 2, 0]).1).sum := by
  decide

/-- C10, amended. For every freshly initialised half-step instance: the cycle
00->01->11->10->00 polls +1 only after the final 00 (net +1, against net 0 for
a fresh full-step instance); one full cycle from the 11 position,
11->10->00->01->11, polls +1 at the 00 passage and +1 at the 11 passage and 0
at the other two codes, net +2, twice the net +1 a fresh full-step instance
polls for the same cycle. -/
theorem buxtonHalf_cycle_from_11 (pinA pinB stepsPerClick AB : Nat) :
    (drivePolled (fresh pinA pinB MODE_BUXTON_HALF stepsPerClick AB) [1, 3, 2, 0]).1
      = [0, 0, 0, 1] ∧
    ((drivePolled (fresh pinA pinB MODE_BUXTON_FULL stepsPerClick AB) [1, 3, 2, 0]).1).sum = 0 ∧
    (drivePolled (fresh pinA pinB MODE_BUXTON_HALF stepsPerClick AB) [2, 0, 1, 3]).1
      = [0, 1, 0, 1] ∧
    ((drivePolled (fresh pinA pinB MODE_BUXTON_HALF stepsPerClick AB) [2, 0, 1, 3]).1).sum = 2 ∧
    ((drivePolled (fresh pinA pinB MODE_BUXTON_HALF stepsPerClick AB) [2, 0, 1, 3]).1).sum =
      2 * ((drivePolled (fresh pinA pinB MODE_BUXTON_FULL stepsPerClick AB) [2, 0, 1, 3]).1).sum := by
  have hh := fresh_buxton_sameCore pinA pinB stepsPerClick AB MODE_BUXTON_HALF (by decide)
  have hf := fresh_buxton_sameCore pinA pinB stepsPerClick AB MODE_BUXTON_FULL (by decide)
  rw [sameCore_drivePolled hh, sameCore_drivePolled hh, sameCore_drivePolled hf,
    sameCore_drivePolled hf]
  decide


/-! ## Configuration and automaton-state invariants -/

theorem getDeltaBrut_fixed (s : SLDencodeur) :
    s.getDeltaBrut.2._steps = s._steps ∧ s.getDeltaBrut.2._mode = s._mode ∧
    s.getDeltaBrut.2._state = s._state ∧ s.getDeltaBrut.2._old_AB = s._old_AB := by
  unfold SLDencodeur.getDeltaBrut
  dsimp only
  split_ifs <;> exact ⟨rfl, rfl, rfl, rfl⟩

theorem getAcceleratedDelta_fixed (s : SLDencodeur) (now : Nat) :
    (s.getAcceleratedDelta now).2._steps = s._steps ∧
    (s.getAcceleratedDelta now).2._mode = s._mode ∧
    (s.getAcceleratedDelta now).2._state = s._state ∧
    (s.getAcceleratedDelta now).2._old_AB = s._old_AB := by
  have h := getDeltaBrut_fixed s
  unfold SLDencodeur.getAcceleratedDelta
  dsimp only
  split_ifs <;> exact h

theorem tick_fixed (s : SLDencodeur) (AB : Nat) :
    (s.tick AB)._steps = s._steps ∧ (s.tick AB)._mode = s._mode := by
  unfold SLDencodeur.tick
  dsimp only
  split_ifs <;> exact ⟨rfl, rfl⟩

theorem applyCall_fixed (s : SLDencodeur) (c : Call) :
    (applyCall s c)._steps = s._steps ∧ (applyCall s c)._mode = s._mode := by
  cases c with
  | begin AB => exact ⟨rfl, rfl⟩
  | tick AB => exact tick_fixed s AB
  | getDeltaBrut => exact ⟨(getDeltaBrut_fixed s).1, (getDeltaBrut_fixed s).2.1⟩
  | getDelta => exact ⟨(getDeltaBrut_fixed s).1, (getDeltaBrut_fixed s).2.1⟩
  | getAcceleratedDelta now =>
    exact ⟨(getAcceleratedDelta_fixed s now).1, (getAcceleratedDelta_fixed s now).2.1⟩
  | reset => exact ⟨rfl, rfl⟩

theorem runCalls_fixed (s : SLDencodeur) (calls : List Call) :
    (runCalls s calls)._steps = s._steps ∧ (runCalls s calls)._mode = s._mode := by
  induction calls generalizing s with
  | nil => exact ⟨rfl, rfl⟩
  | cons c rest ih =>
    have h1 := applyCall_fixed s c
    have h2 := ih (applyCall s c)
    simp only [runCalls, List.foldl_cons] at h2 ⊢
    exact ⟨h2.1.trans h1.1, h2.2.trans h1.2⟩

theorem new_mode (pinA pinB stepsPerClick : Nat) (mode : EncoderMode) :
    (SLDencodeur.new pinA pinB mode stepsPerClick)._mode = mode := by
  cases mode <;> simp [SLDencodeur.new]

/-- C11. The constructor stores the argument as `_steps` in Standard mode and
1 in every other mode, and the requested mode as `_mode`; every single call
(`begin`, `tick`, `getDeltaBrut`, `getDelta`, `getAcceleratedDelta`, `reset`)
on any instance leaves `_steps` and `_mode` unchanged, and so does every
sequence of calls after construction. -/
theorem steps_mode_fixed (pinA pinB stepsPerClick : Nat) (mode : EncoderMode)
    (calls : List Call) :
    (SLDencodeur.new pinA pinB mode stepsPerClick)._steps =
      (if mode = MODE_STANDARD then stepsPerClick else 1) ∧
    (SLDencodeur.new pinA pinB mode stepsPerClick)._mode = mode ∧
    (∀ (s : SLDencodeur) (c : Call),
      (applyCall s c)._steps = s._steps ∧ (applyCall s c)._mode = s._mode) ∧
    (runCalls (SLDencodeur.new pinA pinB mode stepsPerClick) calls)._steps =
      (if mode = MODE_STANDARD then stepsPerClick else 1) ∧
    (runCalls (SLDencodeur.new pinA pinB mode stepsPerClick) calls)._mode = mode := by
  have h1 : (SLDencodeur.new pinA pinB mode stepsPerClick)._steps =
      (if mode = MODE_STANDARD then stepsPerClick else 1) := by
    cases mode <;> simp [SLDencodeur.new]
  have h2 : (SLDencodeur.new pinA pinB mode stepsPerClick)._mode = mode := by
    cases mode <;> simp [SLDencodeur.new]
  have h3 := runCalls_fixed (SLDencodeur.new pinA pinB mode stepsPerClick) calls
  exact ⟨h1, h2, applyCall_fixed, h3.1.trans h1, h3.2.trans h2⟩

theorem tick_buxton (s : SLDencodeur) (hm : s._mode ≠ MODE_STANDARD) (AB : Nat) :
    s.tick AB =
      if buxtonRes s._mode s._state AB &&& DIR_CW ≠ 0 then
        { s with _state := buxtonRes s._mode s._state AB &&& 0x0F,
                 _count := wrap8 (s._count + 1) }
      else if buxtonRes s._mode s._state AB &&& DIR_CCW ≠ 0 then
        { s with _state := buxtonRes s._mode s._state AB &&& 0x0F,
                 _count := wrap8 (s._count - 1) }
      else { s with _state := buxtonRes s._mode s._state AB &&& 0x0F } := by
  unfold SLDencodeur.tick buxtonRes buxtonTable
  simp only [if_neg hm]
  split_ifs <;> rfl

theorem tick_buxton_state (s : SLDencodeur) (hm : s._mode ≠ MODE_STANDARD) (AB : Nat) :
    (s.tick AB)._state = buxtonRes s._mode s._state AB &&& 0x0F := by
  rw [tick_buxton s hm AB]
  split_ifs <;> rfl

theorem tick_standard_state (s : SLDencodeur) (hm : s._mode = MODE_STANDARD) (AB : Nat) :
    (s.tick AB)._state = s._state := by
  unfold SLDencodeur.tick
  simp only [if_pos hm]
  split_ifs <;> rfl

theorem full_next_lt :
    ∀ st < 7, ∀ c < 4, buxtonRes MODE_BUXTON_FULL st c &&& 0x0F < 7 := by
  decide

theorem half_next_lt :
    ∀ st < 6, ∀ c < 4, buxtonRes MODE_BUXTON_HALF st c &&& 0x0F < 6 := by
  decide

theorem applyCall_state_lt (s : SLDencodeur) (c : Call) (hc : callOK c = true)
    (h : s._state < buxtonRows s._mode) :
    (applyCall s c)._state < buxtonRows (applyCall s c)._mode := by
  rw [(applyCall_fixed s c).2]
  have hpos : 0 < buxtonRows s._mode := by omega
  cases c with
  | begin AB => exact hpos
  | reset => exact hpos
  | getDeltaBrut => show s.getDeltaBrut.2._state < _; rw [(getDeltaBrut_fixed s).2.2.1]; exact h
  | getDelta => show s.getDeltaBrut.2._state < _; rw [(getDeltaBrut_fixed s).2.2.1]; exact h
  | getAcceleratedDelta now =>
    show (s.getAcceleratedDelta now).2._state < _
    rw [(getAcceleratedDelta_fixed s now).2.2.1]; exact h
  | tick AB =>
    have hAB : AB < 4 := by simpa [callOK] using hc
    show (s.tick AB)._state < _
    by_cases hm : s._mode = MODE_STANDARD
    · rw [tick_standard_state s hm]; exact h
    · rw [tick_buxton_state s hm]
      rcases hmode : s._mode with _ | _ | _
      · exact absurd hmode hm
      · rw [hmode] at h
        exact full_next_lt _ h _ hAB
      · rw [hmode] at h
        exact half_next_lt _ h _ hAB

theorem runCalls_state_lt (s : SLDencodeur) (calls : List Call)
    (hok : ∀ c ∈ calls, callOK c = true) (h : s._state < buxtonRows s._mode) :
    (runCalls s calls)._state < buxtonRows (runCalls s calls)._mode := by
  induction calls generalizing s with
  | nil => exact h
  | cons c rest ih =>
    have h1 := applyCall_state_lt s c (hok c (List.mem_cons_self _ _)) h
    have h2 := ih (applyCall s c) (fun d hd => hok d (List.mem_cons_of_mem _ hd)) h1
    simpa only [runCalls, List.foldl_cons] using h2

/-- C12. Starting from construction, after any sequence of `begin`, `tick`,
`getDeltaBrut`, `getDelta`, `getAcceleratedDelta` and `reset` calls whose
sampled codes are in 0..3, `_state` is at most 6 in full-step mode and at
most 5 in half-step mode; the row index `_state & 0x0F` that the next `tick`
uses is a row of the selected table and every code in 0..3 is a column of
that row. -/
theorem automatonState_valid (pinA pinB stepsPerClick : Nat) (mode : EncoderMode)
    (calls : List Call) (hok : ∀ c ∈ calls, callOK c = true) :
    (mode = MODE_BUXTON_FULL →
      (runCalls (SLDencodeur.new pinA pinB mode stepsPerClick) calls)._state ≤ 6) ∧
    (mode = MODE_BUXTON_HALF →
      (runCalls (SLDencodeur.new pinA pinB mode stepsPerClick) calls)._state ≤ 5) ∧
    ((runCalls (SLDencodeur.new pinA pinB mode stepsPerClick) calls)._state &&& 0x0F
      < (buxtonTable mode).length) ∧
    (∀ AB < 4, AB < ((buxtonTable mode).getD
      ((runCalls (SLDencodeur.new pinA pinB mode stepsPerClick) calls)._state &&& 0x0F)
      []).length) := by
  have hnew : (SLDencodeur.new pinA pinB mode stepsPerClick)._state
      < buxtonRows (SLDencodeur.new pinA pinB mode stepsPerClick)._mode := by
    cases mode <;> simp +decide [SLDencodeur.new, R_START, buxtonRows]
  have h := runCalls_state_lt _ calls hok hnew
  rw [(runCalls_fixed _ calls).2, new_mode] at h
  generalize (runCalls (SLDencodeur.new pinA pinB mode stepsPerClick) calls)._state = st at h
  cases mode
  · have h6 : st < 6 := h
    interval_cases st <;> decide
  · have h7 : st < 7 := h
    interval_cases st <;> decide
  · have h6 : st < 6 := h
    interval_cases st <;> decide

/-- Witness for C12: a full-step instance taken through a mixed sequence of calls. -/
theorem automatonState_valid_witness :
    (∀ c ∈ [Call.begin 3, Call.tick 2, Call.tick 0, Call.getDeltaBrut, Call.tick 1,
        Call.reset, Call.tick 1, Call.getAcceleratedDelta 50, Call.tick 0, Call.getDelta],
      callOK c = true) ∧
    (runCalls (SLDencodeur.new 2 3 MODE_BUXTON_FULL 1)
      [Call.begin 3, Call.tick 2, Call.tick 0, Call.getDeltaBrut, Call.tick 1,
        Call.reset, Call.tick 1, Call.getAcceleratedDelta 50, Call.tick 0,
        Call.getDelta])._state ≤ 6 :=
  ⟨by decide,
    (automatonState_valid 2 3 1 MODE_BUXTON_FULL
      [Call.begin 3, Call.tick 2, Call.tick 0, Call.getDeltaBrut, Call.tick 1,
        Call.reset, Call.tick 1, Call.getAcceleratedDelta 50, Call.tick 0, Call.getDelta]
      (by decide)).1 rfl⟩

/-! ## Counter increments -/

theorem std_table_values :
    ∀ i < 16, SLD_STD_STATES.getD i 0 = 0 ∨ SLD_STD_STATES.getD i 0 = 1 ∨
      SLD_STD_STATES.getD i 0 = -1 := by
  decide

theorem land15_lt (n : Nat) : n &&& 0x0F < 16 :=
  Nat.lt_succ_of_le Nat.and_le_right

theorem tick_count_cases (s : SLDencodeur) (AB : Nat) :
    (s.tick AB)._count = wrap8 (s._count + 1) ∨ (s.tick AB)._count = s._count ∨
      (s.tick AB)._count = wrap8 (s._count - 1) ∨ (s.tick AB)._count = wrap8 s._count := by
  by_cases hm : s._mode = MODE_STANDARD
  · by_cases hne : AB = s._old_AB
    · subst hne
      rw [tick_standard_same s hm]
      exact Or.inr (Or.inl rfl)
    · rw [tick_standard_ne s hm AB hne]
      rcases std_table_values _ (land15_lt ((s._old_AB <<< 2) ||| AB)) with h | h | h
      · exact Or.inr (Or.inr (Or.inr (by simp only [h, Int.add_zero])))
      · exact Or.inl (by simp only [h])
      · exact Or.inr (Or.inr (Or.inl (by simp only [h]; rfl)))
  · rw [tick_buxton s hm AB]
    split_ifs
    · exact Or.inl rfl
    · exact Or.inr (Or.inr (Or.inl rfl))
    · exact Or.inr (Or.inl rfl)

/-- C13, the claim as stated fails at the limit of the `int8_t` range: in
Standard mode with `_old_AB = 00` and `_count = 127`, `tick` with code 01
stores -128, a difference of -255; in full-step mode from state 5 with
`_count = 127`, `tick` with code 11 does the same. -/
theorem tick_count_wrap_counterexample :
    ((SLDencodeur.mk 2 3 1 0 0 MODE_STANDARD 127 0).tick 1)._count = -128 ∧
    ((SLDencodeur.mk 2 3 1 0 0 MODE_STANDARD 127 0).tick 1)._count - 127 = -255 ∧
    ¬ (((SLDencodeur.mk 2 3 1 0 0 MODE_STANDARD 127 0).tick 1)._count - 127 = 0 ∨
       ((SLDencodeur.mk 2 3 1 0 0 MODE_STANDARD 127 0).tick 1)._count - 127 = 1 ∨
       ((SLDencodeur.mk 2 3 1 0 0 MODE_STANDARD 127 0).tick 1)._count - 127 = -1) ∧
    ((SLDencodeur.mk 2 3 1 0 5 MODE_BUXTON_FULL 127 0).tick 3)._count = -128 := by
  decide

/-- C13, amended. For every mode, every instance state with an `int8_t`
counter and every code: the counter after one `tick` is the `int8_t` narrowing
of the counter plus 0, +1 or -1; it differs from the counter before by exactly
0, +1 or -1 whenever the counter is not at a limit of its range, and at the
limits too except for an increment at 127 (which stores -128) and a decrement
at -128 (which stores 127). -/
theorem tick_count_step (s : SLDencodeur) (hlo : -128 ≤ s._count) (hhi : s._count ≤ 127)
    (AB : Nat) :
    ((s.tick AB)._count = wrap8 (s._count + 0) ∨ (s.tick AB)._count = wrap8 (s._count + 1) ∨
      (s.tick AB)._count = wrap8 (s._count - 1)) ∧
    (-128 < s._count → s._count < 127 →
      (s.tick AB)._count - s._count = 0 ∨ (s.tick AB)._count - s._count = 1 ∨
      (s.tick AB)._count - s._count = -1) ∧
    ((s.tick AB)._count - s._count = 0 ∨ (s.tick AB)._count - s._count = 1 ∨
      (s.tick AB)._count - s._count = -1 ∨
      (s._count = 127 ∧ (s.tick AB)._count = -128) ∨
      (s._count = -128 ∧ (s.tick AB)._count = 127)) := by
  have hw : wrap8 s._count = s._count := wrap8_of_range _ hlo hhi
  have h := tick_count_cases s AB
  rw [hw] at h
  generalize (s.tick AB)._count = c at h
  rw [Int.add_zero, hw]
  unfold wrap8 at h ⊢
  refine ⟨?_, ?_, ?_⟩
  · omega
  · intro h1 h2; omega
  · omega

/-- Witness for C13 (amended): Standard mode, `_old_AB = 00`, `_count = 5`, code 01. -/
theorem tick_count_step_witness :
    ((-128 : Int) ≤ 5 ∧ (5 : Int) ≤ 127) ∧
    (((SLDencodeur.mk 2 3 1 0 0 MODE_STANDARD 5 0).tick 1)._count - 5 = 0 ∨
      ((SLDencodeur.mk 2 3 1 0 0 MODE_STANDARD 5 0).tick 1)._count - 5 = 1 ∨
      ((SLDencodeur.mk 2 3 1 0 0 MODE_STANDARD 5 0).tick 1)._count - 5 = -1) :=
  ⟨by decide,
    (tick_count_step (SLDencodeur.mk 2 3 1 0 0 MODE_STANDARD 5 0) (by decide) (by decide)
      1).2.1 (by decide) (by decide)⟩

/-! ## Buxton engines: one step and flag-free sequences -/

theorem buxton_flags_exclusive :
    (∀ st < 7, ∀ c < 4, ¬ (buxtonRes MODE_BUXTON_FULL st c &&& DIR_CW ≠ 0 ∧
      buxtonRes MODE_BUXTON_FULL st c &&& DIR_CCW ≠ 0)) ∧
    (∀ st < 6, ∀ c < 4, ¬ (buxtonRes MODE_BUXTON_HALF st c &&& DIR_CW ≠ 0 ∧
      buxtonRes MODE_BUXTON_HALF st c &&& DIR_CCW ≠ 0)) := by
  decide

theorem buxtonRes_valid (m : EncoderMode) (st AB : Nat) (hst : st < buxtonRows m) :
    buxtonRes m st AB = cell (buxtonTable m) st AB := by
  have h16 : st < 16 := by
    have : buxtonRows m ≤ 7 := by cases m <;> decide
    omega
  unfold buxtonRes
  rw [land15 st h16]

theorem getDeltaBrut_zero (s : SLDencodeur) (h : s._count = 0) : s.getDeltaBrut.1 = 0 := by
  unfold SLDencodeur.getDeltaBrut
  dsimp only
  split_ifs
  · rw [h]
    simp [wrap8]
  · rfl

theorem drive_cons (s : SLDencodeur) (AB : Nat) (rest : List Nat) :
    drive s (AB :: rest) = drive (s.tick AB) rest := rfl

theorem traversesFlag_false_count (s : SLDencodeur) (hm : s._mode ≠ MODE_STANDARD)
    (codes : List Nat) (h : traversesFlag s codes = false) :
    (drive s codes)._count = s._count := by
  induction codes generalizing s with
  | nil => rfl
  | cons AB rest ih =>
    simp only [traversesFlag, Bool.or_eq_false_iff] at h
    have hm1 : (s.tick AB)._mode ≠ MODE_STANDARD := by rw [(tick_fixed s AB).2]; exact hm
    rw [drive_cons, ih (s.tick AB) hm1 h.2]
    have he := h.1
    simp only [emitsFlag, Bool.or_eq_false_iff, bne_eq_false_iff_eq] at he
    rw [tick_buxton s hm AB]
    simp [he.1, he.2]

/-- C14. In either Buxton mode, from a valid row and with a code in 0..3,
`tick` sets `_state` to the low 4 bits of `table[_state][AB]`; it stores the
`int8_t` increment of `_count` (exactly +1 below 127) when that cell carries
`DIR_CW`, the `int8_t` decrement (exactly -1 above -128) when it carries
`DIR_CCW`, and leaves `_count` as it is when the cell carries neither. So from
`_count = 0` every sequence of codes that never reads a flag cell leaves
`_count` at 0 and `getDeltaBrut` then returns 0. -/
theorem tick_buxton_spec (s : SLDencodeur) (hm : s._mode ≠ MODE_STANDARD)
    (hst : s._state < buxtonRows s._mode) (AB : Nat) (hAB : AB < 4) :
    (s.tick AB)._state = cell (buxtonTable s._mode) s._state AB &&& 0x0F ∧
    (cell (buxtonTable s._mode) s._state AB &&& DIR_CW ≠ 0 →
      (s.tick AB)._count = wrap8 (s._count + 1) ∧
      (-128 ≤ s._count → s._count < 127 → (s.tick AB)._count = s._count + 1)) ∧
    (cell (buxtonTable s._mode) s._state AB &&& DIR_CCW ≠ 0 →
      (s.tick AB)._count = wrap8 (s._count - 1) ∧
      (-128 < s._count → s._count ≤ 127 → (s.tick AB)._count = s._count - 1)) ∧
    (cell (buxtonTable s._mode) s._state AB &&& DIR_CW = 0 →
      cell (buxtonTable s._mode) s._state AB &&& DIR_CCW = 0 →
      (s.tick AB)._count = s._count) ∧
    (∀ codes : List Nat, s._count = 0 → traversesFlag s codes = false →
      (drive s codes)._count = 0 ∧ (drive s codes).getDeltaBrut.1 = 0) := by
  have hres := buxtonRes_valid s._mode s._state AB hst
  have hexcl : ¬ (buxtonRes s._mode s._state AB &&& DIR_CW ≠ 0 ∧
      buxtonRes s._mode s._state AB &&& DIR_CCW ≠ 0) := by
    rcases hmode : s._mode with _ | _ | _
    · exact absurd hmode hm
    · rw [hmode] at hst; exact buxton_flags_exclusive.1 _ hst _ hAB
    · rw [hmode] at hst; exact buxton_flags_exclusive.2 _ hst _ hAB
  rw [← hres]
  refine ⟨tick_buxton_state s hm AB, ?_, ?_, ?_, ?_⟩
  · intro hcw
    have hc : (s.tick AB)._count = wrap8 (s._count + 1) := by
      rw [tick_buxton s hm AB, if_pos hcw]
    exact ⟨hc, fun h1 h2 => by rw [hc, wrap8_of_range _ (by omega) (by omega)]⟩
  · intro hccw
    have hcw : ¬ buxtonRes s._mode s._state AB &&& DIR_CW ≠ 0 := fun h => hexcl ⟨h, hccw⟩
    have hc : (s.tick AB)._count = wrap8 (s._count - 1) := by
      rw [tick_buxton s hm AB, if_neg hcw, if_pos hccw]
    exact ⟨hc, fun h1 h2 => by rw [hc, wrap8_of_range _ (by omega) (by omega)]⟩
  · intro h1 h2
    rw [tick_buxton s hm AB]
    simp [h1, h2]
  · intro codes h0 hf
    have hc := traversesFlag_false_count s hm codes hf
    rw [h0] at hc
    exact ⟨hc, getDeltaBrut_zero _ hc⟩

/-- Witness for C14: full-step row 6 with code 01 (cell 5, no flag), counter
0, and the flag-free bounce 01, 11, 01, 11, 10, 11 from row 0. -/
theorem tick_buxton_spec_witness :
    ((SLDencodeur.mk 2 3 1 0 6 MODE_BUXTON_FULL 0 0).tick 1)._state = 5 ∧
    ((SLDencodeur.mk 2 3 1 0 6 MODE_BUXTON_FULL 0 0).tick 1)._count = 0 ∧
    (drive (SLDencodeur.mk 2 3 1 0 0 MODE_BUXTON_FULL 0 0) [1, 3, 1, 3, 2, 3])._count = 0 ∧
    (drive (SLDencodeur.mk 2 3 1 0 0 MODE_BUXTON_FULL 0 0)
      [1, 3, 1, 3, 2, 3]).getDeltaBrut.1 = 0 :=
  ⟨(tick_buxton_spec (SLDencodeur.mk 2 3 1 0 6 MODE_BUXTON_FULL 0 0) (by decide) (by decide)
      1 (by decide)).1,
    (tick_buxton_spec (SLDencodeur.mk 2 3 1 0 6 MODE_BUXTON_FULL 0 0) (by decide) (by decide)
      1 (by decide)).2.2.2.1 (by decide) (by decide),
    ((tick_buxton_spec (SLDencodeur.mk 2 3 1 0 0 MODE_BUXTON_FULL 0 0) (by decide) (by decide)
      1 (by decide)).2.2.2.2 [1, 3, 1, 3, 2, 3] rfl (by decide)).1,
    ((tick_buxton_spec (SLDencodeur.mk 2 3 1 0 0 MODE_BUXTON_FULL 0 0) (by decide) (by decide)
      1 (by decide)).2.2.2.2 [1, 3, 1, 3, 2, 3] rfl (by decide)).2⟩

/-! ## Buxton engines: full cycles from the 11 position -/

theorem full_code3_to_start : ∀ st < 7, buxtonRes MODE_BUXTON_FULL st 3 &&& 0x0F = 0 := by
  decide

theorem half_code3_to_start : ∀ st < 6, buxtonRes MODE_BUXTON_HALF st 3 &&& 0x0F = 0 := by
  decide

/-- C16. Full-step mode. From every valid row (0..6) a `tick` with code 11
leaves the automaton in row 0. From row 0 the sequence 10, 00, 01, 11 changes
`_count` by 0, 0, 0, +1 (exactly +1, on its last input only) and ends in row
0, and the sequence 01, 00, 10, 11 changes it by 0, 0, 0, -1 and ends in row
0, the counter staying inside the `int8_t` range. -/
theorem buxtonFull_selfCorrecting (s : SLDencodeur) (hm : s._mode = MODE_BUXTON_FULL)
    (hst : s._state < 7) :
    (s.tick 3)._state = 0 ∧ (s.tick 3)._mode = MODE_BUXTON_FULL ∧
    (∀ t : SLDencodeur, t._mode = MODE_BUXTON_FULL → t._state = 0 →
      -128 ≤ t._count → t._count < 127 →
      countDeltas t [2, 0, 1, 3] = [0, 0, 0, 1] ∧
      (drive t [2, 0, 1, 3])._count = t._count + 1 ∧
      (drive t [2, 0, 1, 3])._state = 0) ∧
    (∀ t : SLDencodeur, t._mode = MODE_BUXTON_FULL → t._state = 0 →
      -128 < t._count → t._count ≤ 127 →
      countDeltas t [1, 0, 2, 3] = [0, 0, 0, -1] ∧
      (drive t [1, 0, 2, 3])._count = t._count - 1 ∧
      (drive t [1, 0, 2, 3])._state = 0) := by
  have hne : s._mode ≠ MODE_STANDARD := by rw [hm]; decide
  refine ⟨?_, ?_, ?_, ?_⟩
  · rw [tick_buxton_state s hne, hm]
    exact full_code3_to_start _ hst
  · rw [(tick_fixed s 3).2, hm]
  · intro t htm hts hlo hhi
    rcases t with ⟨a, b, st, o, q, m, c, l⟩
    simp only at htm hts hlo hhi
    subst htm hts
    simp +decide [countDeltas, drive, SLDencodeur.tick, cell, SLD_BT_FULL, DIR_CW, DIR_CCW]
    rw [wrap8_of_range _ (by omega) (by omega)]
    omega
  · intro t htm hts hlo hhi
    rcases t with ⟨a, b, st, o, q, m, c, l⟩
    simp only at htm hts hlo hhi
    subst htm hts
    simp +decide [countDeltas, drive, SLDencodeur.tick, cell, SLD_BT_FULL, DIR_CW, DIR_CCW]
    rw [wrap8_of_range _ (by omega) (by omega)]
    omega

/-- Witness for C16: row 5 with counter 7; code 11 completes a cycle and
returns to row 0, and the next cycle 10, 00, 01, 11 counts +1 on its last
input. -/
theorem buxtonFull_selfCorrecting_witness :
    ((SLDencodeur.mk 2 3 1 0 5 MODE_BUXTON_FULL 7 0).tick 3)._state = 0 ∧
    countDeltas ((SLDencodeur.mk 2 3 1 0 5 MODE_BUXTON_FULL 7 0).tick 3) [2, 0, 1, 3]
      = [0, 0, 0, 1] ∧
    countDeltas ((SLDencodeur.mk 2 3 1 0 5 MODE_BUXTON_FULL 7 0).tick 3) [1, 0, 2, 3]
      = [0, 0, 0, -1] :=
  ⟨(buxtonFull_selfCorrecting (SLDencodeur.mk 2 3 1 0 5 MODE_BUXTON_FULL 7 0) rfl
      (by decide)).1,
    ((buxtonFull_selfCorrecting (SLDencodeur.mk 2 3 1 0 5 MODE_BUXTON_FULL 7 0) rfl
      (by decide)).2.2.1 _ (by decide) (by decide) (by decide) (by decide)).1,
    ((buxtonFull_selfCorrecting (SLDencodeur.mk 2 3 1 0 5 MODE_BUXTON_FULL 7 0) rfl
      (by decide)).2.2.2 _ (by decide) (by decide) (by decide) (by decide)).1⟩

theorem half_mid_codes_silent :
    ∀ st < 6, ∀ c < 4, (c = 1 ∨ c = 2) →
      buxtonRes MODE_BUXTON_HALF st c &&& DIR_CW = 0 ∧
      buxtonRes MODE_BUXTON_HALF st c &&& DIR_CCW = 0 := by
  decide

/-- C17. Half-step mode. From every valid row (0..5) a `tick` with code 11
leaves the automaton in row 0, and a `tick` with code 01 or 10 never changes
`_count`. From row 0 the cycle 10, 00, 01, 11 changes `_count` by 0, +1, 0, +1
(net +2) and the reverse cycle 01, 00, 10, 11 by 0, -1, 0, -1 (net -2), the
counter staying inside the `int8_t` range; the net change is twice the one a
full-step instance in row 0 makes on the same cycle. -/
theorem buxtonHalf_detents (s : SLDencodeur) (hm : s._mode = MODE_BUXTON_HALF)
    (hst : s._state < 6) :
    (s.tick 3)._state = 0 ∧ (s.tick 3)._mode = MODE_BUXTON_HALF ∧
    (s.tick 1)._count = s._count ∧ (s.tick 2)._count = s._count ∧
    (∀ t : SLDencodeur, t._mode = MODE_BUXTON_HALF → t._state = 0 →
      -128 ≤ t._count → t._count + 2 ≤ 127 →
      countDeltas t [2, 0, 1, 3] = [0, 1, 0, 1] ∧
      (drive t [2, 0, 1, 3])._count = t._count + 2 ∧
      (drive t [2, 0, 1, 3])._state = 0) ∧
    (∀ t : SLDencodeur, t._mode = MODE_BUXTON_HALF → t._state = 0 →
      -128 ≤ t._count - 2 → t._count ≤ 127 →
      countDeltas t [1, 0, 2, 3] = [0, -1, 0, -1] ∧
      (drive t [1, 0, 2, 3])._count = t._count - 2 ∧
      (drive t [1, 0, 2, 3])._state = 0) ∧
    (∀ t u : SLDencodeur, t._mode = MODE_BUXTON_HALF → t._state = 0 →
      u._mode = MODE_BUXTON_FULL → u._state = 0 → u._count = t._count →
      -128 ≤ t._count - 2 → t._count + 2 ≤ 127 →
      (drive t [2, 0, 1, 3])._count - t._count =
        2 * ((drive u [2, 0, 1, 3])._count - u._count) ∧
      (drive t [1, 0, 2, 3])._count - t._count =
        2 * ((drive u [1, 0, 2, 3])._count - u._count)) := by
  have hne : s._mode ≠ MODE_STANDARD := by rw [hm]; decide
  have hsilent : ∀ c < 4, (c = 1 ∨ c = 2) → (s.tick c)._count = s._count := by
    intro c hc h12
    have h := half_mid_codes_silent _ hst c hc h12
    rw [tick_buxton s hne c, hm]
    simp [h.1, h.2]
  refine ⟨?_, ?_, hsilent 1 (by decide) (Or.inl rfl), hsilent 2 (by decide) (Or.inr rfl),
    ?_, ?_, ?_⟩
  · rw [tick_buxton_state s hne, hm]
    exact half_code3_to_start _ hst
  · rw [(tick_fixed s 3).2, hm]
  · intro t htm hts hlo hhi
    rcases t with ⟨a, b, st, o, q, m, c, l⟩
    simp only at htm hts hlo hhi
    subst htm hts
    simp +decide [countDeltas, drive, SLDencodeur.tick, cell, SLD_BT_HALF, DIR_CW, DIR_CCW]
    unfold wrap8
    omega
  · intro t htm hts hlo hhi
    rcases t with ⟨a, b, st, o, q, m, c, l⟩
    simp only at htm hts hlo hhi
    subst htm hts
    simp +decide [countDeltas, drive, SLDencodeur.tick, cell, SLD_BT_HALF, DIR_CW, DIR_CCW]
    unfold wrap8
    omega
  · intro t u htm hts hum hus huc hlo hhi
    rcases t with ⟨a, b, st, o, q, m, c, l⟩
    rcases u with ⟨a2, b2, st2, o2, q2, m2, c2, l2⟩
    simp only at htm hts hum hus huc hlo hhi
    subst htm hts hum hus huc
    simp +decide [drive, SLDencodeur.tick, cell, SLD_BT_HALF, SLD_BT_FULL, DIR_CW, DIR_CCW]
    unfold wrap8
    omega

/-- Witness for C17: row 4 with counter 3; code 11 returns to row 0, code 01
leaves the counter alone, and the next cycle 10, 00, 01, 11 counts 0, +1, 0, +1. -/
theorem buxtonHalf_detents_witness :
    ((SLDencodeur.mk 2 3 1 0 4 MODE_BUXTON_HALF 3 0).tick 3)._state = 0 ∧
    ((SLDencodeur.mk 2 3 1 0 4 MODE_BUXTON_HALF 3 0).tick 1)._count = 3 ∧
    countDeltas ((SLDencodeur.mk 2 3 1 0 4 MODE_BUXTON_HALF 3 0).tick 3) [2, 0, 1, 3]
      = [0, 1, 0, 1] :=
  ⟨(buxtonHalf_detents (SLDencodeur.mk 2 3 1 0 4 MODE_BUXTON_HALF 3 0) rfl (by decide)).1,
    (buxtonHalf_detents (SLDencodeur.mk 2 3 1 0 4 MODE_BUXTON_HALF 3 0) rfl
      (by decide)).2.2.1,
    ((buxtonHalf_detents (SLDencodeur.mk 2 3 1 0 4 MODE_BUXTON_HALF 3 0) rfl
      (by decide)).2.2.2.2.1 _ (by decide) (by decide) (by decide) (by decide)).1⟩

/-! ## Bounce between two signal levels -/

theorem bounceCheck_full : bounceCheck MODE_BUXTON_FULL 7 = true := by
  decide

theorem bounceCheck_half : bounceCheck MODE_BUXTON_HALF 6 = true := by
  decide

theorem bounceCheck_mode (m : EncoderMode) (hm : m ≠ MODE_STANDARD) :
    bounceCheck m (buxtonRows m) = true := by
  cases m
  · exact absurd rfl hm
  · exact bounceCheck_full
  · exact bounceCheck_half

theorem nextState_lt (m : EncoderMode) (hm : m ≠ MODE_STANDARD) (st c : Nat)
    (hst : st < buxtonRows m) (hc : c < 4) : nextState m st c < buxtonRows m := by
  cases m
  · exact absurd rfl hm
  · exact full_next_lt st hst c hc
  · exact half_next_lt st hst c hc

theorem bounce_facts (m : EncoderMode) (hm : m ≠ MODE_STANDARD) (a b st : Nat)
    (ha : a < 4) (hb : b < 4) (hst : st < buxtonRows m) :
    (quietFor m a b 4 st = true →
      emitsFlag m st a = false ∧ emitsFlag m st b = false ∧
      quietFor m a b 4 (nextState m st a) = true ∧
      quietFor m a b 4 (nextState m st b) = true) ∧
    (emitsFlag m st a = true → quietFor m a b 4 (nextState m st a) = true) ∧
    (emitsFlag m st b = true → quietFor m a b 4 (nextState m st b) = true) := by
  have h := bounceCheck_mode m hm
  unfold bounceCheck at h
  simp only [List.all_eq_true, List.mem_range] at h
  have h1 := h a ha b hb st hst
  revert h1
  generalize quietFor m a b 4 st = q
  generalize quietFor m a b 4 (nextState m st a) = qa
  generalize quietFor m a b 4 (nextState m st b) = qb
  generalize emitsFlag m st a = ea
  generalize emitsFlag m st b = eb
  cases q <;> cases qa <;> cases qb <;> cases ea <;> cases eb <;> simp

theorem tick_noFlag_count (s : SLDencodeur) (hm : s._mode ≠ MODE_STANDARD) (AB : Nat)
    (h : emitsFlag s._mode s._state AB = false) : (s.tick AB)._count = s._count := by
  simp only [emitsFlag, Bool.or_eq_false_iff, bne_eq_false_iff_eq] at h
  rw [tick_buxton s hm AB]
  simp [h.1, h.2]

theorem changes_cons (s : SLDencodeur) (AB : Nat) (rest : List Nat) :
    changes s (AB :: rest) =
      (if (s.tick AB)._count ≠ s._count then 1 else 0) + changes (s.tick AB) rest := rfl

theorem quiet_no_change (a b : Nat) (ha : a < 4) (hb : b < 4) (codes : List Nat)
    (hcodes : ∀ c ∈ codes, c = a ∨ c = b) (s : SLDencodeur) (hm : s._mode ≠ MODE_STANDARD)
    (hst : s._state < buxtonRows s._mode) (hq : quietFor s._mode a b 4 s._state = true) :
    changes s codes = 0 ∧ (drive s codes)._count = s._count := by
  induction codes generalizing s with
  | nil => exact ⟨rfl, rfl⟩
  | cons c rest ih =>
    have hf := (bounce_facts s._mode hm a b s._state ha hb hst).1 hq
    have hmode := (tick_fixed s c).2
    have hstate : (s.tick c)._state = nextState s._mode s._state c := tick_buxton_state s hm c
    have hc4 : c < 4 := by
      rcases hcodes c (List.mem_cons_self _ _) with h | h <;> omega
    have hemit : emitsFlag s._mode s._state c = false := by
      rcases hcodes c (List.mem_cons_self _ _) with h | h
      · rw [h]; exact hf.1
      · rw [h]; exact hf.2.1
    have hquiet : quietFor s._mode a b 4 (nextState s._mode s._state c) = true := by
      rcases hcodes c (List.mem_cons_self _ _) with h | h
      · rw [h]; exact hf.2.2.1
      · rw [h]; exact hf.2.2.2
    have hcount := tick_noFlag_count s hm c hemit
    have hrec := ih (fun d hd => hcodes d (List.mem_cons_of_mem _ hd)) (s.tick c)
      (by rw [hmode]; exact hm)
      (by rw [hmode, hstate]; exact nextState_lt _ hm _ _ hst hc4)
      (by rw [hmode, hstate]; exact hquiet)
    rw [changes_cons, drive_cons, hrec.1, hrec.2, hcount]
    simp

theorem tick_buxton_count_cases (s : SLDencodeur) (hm : s._mode ≠ MODE_STANDARD) (AB : Nat) :
    (s.tick AB)._count = s._count ∨ (s.tick AB)._count = wrap8 (s._count + 1) ∨
      (s.tick AB)._count = wrap8 (s._count - 1) := by
  rw [tick_buxton s hm AB]
  split_ifs
  · exact Or.inr (Or.inl rfl)
  · exact Or.inr (Or.inr rfl)
  · exact Or.inl rfl

theorem bounce_aux (a b : Nat) (ha : a < 4) (hb : b < 4) (codes : List Nat)
    (hcodes : ∀ c ∈ codes, c = a ∨ c = b) (s : SLDencodeur) (hm : s._mode ≠ MODE_STANDARD)
    (hst : s._state < buxtonRows s._mode) :
    changes s codes ≤ 1 ∧
    ((drive s codes)._count = s._count ∨ (drive s codes)._count = wrap8 (s._count + 1) ∨
      (drive s codes)._count = wrap8 (s._count - 1)) := by
  induction codes generalizing s with
  | nil => exact ⟨Nat.zero_le _, Or.inl rfl⟩
  | cons c rest ih =>
    have hrest : ∀ d ∈ rest, d = a ∨ d = b := fun d hd => hcodes d (List.mem_cons_of_mem _ hd)
    have hmode := (tick_fixed s c).2
    have hstate : (s.tick c)._state = nextState s._mode s._state c := tick_buxton_state s hm c
    have hc4 : c < 4 := by
      rcases hcodes c (List.mem_cons_self _ _) with h | h <;> omega
    have hm1 : (s.tick c)._mode ≠ MODE_STANDARD := by rw [hmode]; exact hm
    have hst1 : (s.tick c)._state < buxtonRows (s.tick c)._mode := by
      rw [hmode, hstate]; exact nextState_lt _ hm _ _ hst hc4
    rw [changes_cons, drive_cons]
    cases hemit : emitsFlag s._mode s._state c
    · have hcount := tick_noFlag_count s hm c hemit
      have hrec := ih hrest (s.tick c) hm1 hst1
      rw [hcount] at hrec ⊢
      simpa using hrec
    · have hf := bounce_facts s._mode hm a b s._state ha hb hst
      have hquiet : quietFor s._mode a b 4 (nextState s._mode s._state c) = true := by
        rcases hcodes c (List.mem_cons_self _ _) with h | h
        · rw [h] at hemit ⊢; exact hf.2.1 hemit
        · rw [h] at hemit ⊢; exact hf.2.2 hemit
      have hrec := quiet_no_change a b ha hb rest hrest (s.tick c) hm1 hst1
        (by rw [hmode, hstate]; exact hquiet)
      rw [hrec.1, hrec.2]
      refine ⟨?_, tick_buxton_count_cases s hm c⟩
      split_ifs <;> omega

/-- C18. In either Buxton mode, from every valid row, for every pair of codes
`a`, `b` in 0..3 and every finite sequence of codes drawn from `a` and `b`:
at most one `tick` of the sequence changes `_count`; the final counter is the
initial one, or its `int8_t` increment, or its `int8_t` decrement, so the net
change has magnitude at most 1 when the counter starts away from the limits of
its range. -/
theorem bounce_at_most_one (s : SLDencodeur) (hm : s._mode ≠ MODE_STANDARD)
    (hst : s._state < buxtonRows s._mode) (a b : Nat) (ha : a < 4) (hb : b < 4)
    (codes : List Nat) (hcodes : ∀ c ∈ codes, c = a ∨ c = b) :
    changes s codes ≤ 1 ∧
    ((drive s codes)._count = s._count ∨ (drive s codes)._count = wrap8 (s._count + 1) ∨
      (drive s codes)._count = wrap8 (s._count - 1)) ∧
    (-128 < s._count → s._count < 127 → |(drive s codes)._count - s._count| ≤ 1) := by
  have h := bounce_aux a b ha hb codes hcodes s hm hst
  refine ⟨h.1, h.2, fun hlo hhi => ?_⟩
  rw [abs_le]
  rcases h.2 with h1 | h1 | h1
  · rw [h1]; omega
  · rw [h1, wrap8_of_range _ (by omega) (by omega)]; omega
  · rw [h1, wrap8_of_range _ (by omega) (by omega)]; omega

/-- Witness for C18: half-step row 1, bounce between 00 and 01. -/
theorem bounce_at_most_one_witness :
    changes (SLDencodeur.mk 2 3 1 0 1 MODE_BUXTON_HALF 0 0) [0, 1, 0, 1, 1, 0, 0, 1] ≤ 1 ∧
    |(drive (SLDencodeur.mk 2 3 1 0 1 MODE_BUXTON_HALF 0 0) [0, 1, 0, 1, 1, 0, 0, 1])._count
      - 0| ≤ 1 :=
  ⟨(bounce_at_most_one (SLDencodeur.mk 2 3 1 0 1 MODE_BUXTON_HALF 0 0) (by decide)
      (by decide) 0 1 (by decide) (by decide) [0, 1, 0, 1, 1, 0, 0, 1] (by decide)).1,
    (bounce_at_most_one (SLDencodeur.mk 2 3 1 0 1 MODE_BUXTON_HALF 0 0) (by decide)
      (by decide) 0 1 (by decide) (by decide) [0, 1, 0, 1, 1, 0, 0, 1] (by decide)).2.2
      (by decide) (by decide)⟩

/-! ## Standard engine: phase tracking -/

theorem std_table_phase :
    ∀ p < 4, ∀ c < 4, p ^^^ c ≠ 3 → c ≠ p →
      (SLD_STD_STATES.getD (((p <<< 2) ||| c) &&& 0x0F) 0 - (phase c - phase p)) % 4 = 0 := by
  decide

theorem tick_standard_phase (s : SLDencodeur) (hm : s._mode = MODE_STANDARD)
    (hp : s._old_AB < 4) (c : Nat) (hc : c < 4) (hx : s._old_AB ^^^ c ≠ 3) :
    ((s.tick c)._count - s._count - (phase c - phase s._old_AB)) % 4 = 0 := by
  by_cases hne : c = s._old_AB
  · subst hne
    rw [tick_standard_same s hm]
    simp
  · have h := std_table_phase s._old_AB hp c hc hx hne
    have hcnt : (s.tick c)._count =
        wrap8 (s._count + SLD_STD_STATES.getD (((s._old_AB <<< 2) ||| c) &&& 0x0F) 0) := by
      rw [tick_standard_ne s hm c hne]
    rw [hcnt]
    generalize SLD_STD_STATES.getD (((s._old_AB <<< 2) ||| c) &&& 0x0F) 0 = d at h
    generalize phase c - phase s._old_AB = q at h
    unfold wrap8
    omega

theorem drive_phase (codes : List Nat) (s : SLDencodeur) (hm : s._mode = MODE_STANDARD)
    (hp : s._old_AB < 4) (hg : glitchFree s._old_AB codes = true) :
    ((drive s codes)._count - s._count -
      (phase (codes.getLastD s._old_AB) - phase s._old_AB)) % 4 = 0 := by
  induction codes generalizing s with
  | nil => simp [drive]
  | cons c rest ih =>
    simp only [glitchFree, Bool.and_eq_true, decide_eq_true_eq] at hg
    obtain ⟨⟨hc, hx⟩, hrest⟩ := hg
    have h1 := tick_standard_phase s hm hp c hc hx
    have hold := tick_old_AB s hm c
    have h2 := ih (s.tick c) hold.2 (by rw [hold.1]; exact hc) (by rw [hold.1]; exact hrest)
    rw [hold.1] at h2
    rw [drive_cons, List.getLastD_cons]
    omega

/-- C19. Standard mode, previous code `p = _old_AB` in 0..3 and a sequence of
codes in 0..3 each differing from its predecessor (`p` for the first) in at
most one bit: the change of `_count` over the sequence is congruent modulo 4
to `phase (last code) - phase p` (the last code of the empty sequence being
`p`); so a sequence that returns to `p` changes `_count` by a multiple of 4. -/
theorem standard_tracks_phase (s : SLDencodeur) (hm : s._mode = MODE_STANDARD)
    (hp : s._old_AB < 4) (codes : List Nat) (hg : glitchFree s._old_AB codes = true) :
    ((drive s codes)._count - s._count) % 4 =
      (phase (codes.getLastD s._old_AB) - phase s._old_AB) % 4 ∧
    (codes.getLastD s._old_AB = s._old_AB → (4 : Int) ∣ (drive s codes)._count - s._count) := by
  have h := drive_phase codes s hm hp hg
  constructor
  · omega
  · intro hlast
    rw [hlast] at h
    apply Int.dvd_of_emod_eq_zero
    omega

/-- Witness for C19: from 00 the glitch-free walk 01, 11, 01, 00, 10, 00
returns to 00. -/
theorem standard_tracks_phase_witness :
    glitchFree 0 [1, 3, 1, 0, 2, 0] = true ∧
    (4 : Int) ∣ (drive (SLDencodeur.mk 2 3 4 0 0 MODE_STANDARD 0 0)
      [1, 3, 1, 0, 2, 0])._count - 0 :=
  ⟨by decide,
    (standard_tracks_phase (SLDencodeur.mk 2 3 4 0 0 MODE_STANDARD 0 0) rfl (by decide)
      [1, 3, 1, 0, 2, 0] (by decide)).2 rfl⟩

/-! ## Exchanging the two signal lines -/

theorem std_mirror :
    ∀ p < 4, ∀ c < 4,
      SLD_STD_STATES.getD (((mirror p <<< 2) ||| mirror c) &&& 0x0F) 0 =
        -SLD_STD_STATES.getD (((p <<< 2) ||| c) &&& 0x0F) 0 ∧
      mirror c < 4 ∧ (mirror c = mirror p → c = p) := by
  decide

theorem full_mirror :
    ∀ st < 7, ∀ c < 4,
      nextState MODE_BUXTON_FULL (mirrorState MODE_BUXTON_FULL st) (mirror c) =
        mirrorState MODE_BUXTON_FULL (nextState MODE_BUXTON_FULL st c) ∧
      ((buxtonRes MODE_BUXTON_FULL (mirrorState MODE_BUXTON_FULL st) (mirror c) &&& DIR_CW != 0)
        = (buxtonRes MODE_BUXTON_FULL st c &&& DIR_CCW != 0)) ∧
      ((buxtonRes MODE_BUXTON_FULL (mirrorState MODE_BUXTON_FULL st) (mirror c) &&& DIR_CCW != 0)
        = (buxtonRes MODE_BUXTON_FULL st c &&& DIR_CW != 0)) := by
  decide

theorem half_mirror :
    ∀ st < 6, ∀ c < 4,
      nextState MODE_BUXTON_HALF (mirrorState MODE_BUXTON_HALF st) (mirror c) =
        mirrorState MODE_BUXTON_HALF (nextState MODE_BUXTON_HALF st c) ∧
      ((buxtonRes MODE_BUXTON_HALF (mirrorState MODE_BUXTON_HALF st) (mirror c) &&& DIR_CW != 0)
        = (buxtonRes MODE_BUXTON_HALF st c &&& DIR_CCW != 0)) ∧
      ((buxtonRes MODE_BUXTON_HALF (mirrorState MODE_BUXTON_HALF st) (mirror c) &&& DIR_CCW != 0)
        = (buxtonRes MODE_BUXTON_HALF st c &&& DIR_CW != 0)) := by
  decide

theorem buxton_mirror (m : EncoderMode) (hm : m ≠ MODE_STANDARD) (st c : Nat)
    (hst : st < buxtonRows m) (hc : c < 4) :
    nextState m (mirrorState m st) (mirror c) = mirrorState m (nextState m st c) ∧
    ((buxtonRes m (mirrorState m st) (mirror c) &&& DIR_CW != 0)
      = (buxtonRes m st c &&& DIR_CCW != 0)) ∧
    ((buxtonRes m (mirrorState m st) (mirror c) &&& DIR_CCW != 0)
      = (buxtonRes m st c &&& DIR_CW != 0)) := by
  cases m
  · exact absurd rfl hm
  · exact full_mirror st hst c hc
  · exact half_mirror st hst c hc

theorem tick_buxton_count (s : SLDencodeur) (hm : s._mode ≠ MODE_STANDARD) (AB : Nat) :
    (s.tick AB)._count =
      if buxtonRes s._mode s._state AB &&& DIR_CW ≠ 0 then wrap8 (s._count + 1)
      else if buxtonRes s._mode s._state AB &&& DIR_CCW ≠ 0 then wrap8 (s._count - 1)
      else s._count := by
  rw [tick_buxton s hm AB]
  split_ifs <;> rfl

theorem buxton_flags_exclusive_mode (m : EncoderMode) (hm : m ≠ MODE_STANDARD) (st c : Nat)
    (hst : st < buxtonRows m) (hc : c < 4) :
    ¬ (buxtonRes m st c &&& DIR_CW ≠ 0 ∧ buxtonRes m st c &&& DIR_CCW ≠ 0) := by
  cases m
  · exact absurd rfl hm
  · exact buxton_flags_exclusive.1 st hst c hc
  · exact buxton_flags_exclusive.2 st hst c hc

theorem mirror_step_standard (s t : SLDencodeur) (h : MirrorEngine s t)
    (hm : s._mode = MODE_STANDARD) (c : Nat) (hc : c < 4) :
    MirrorEngine (s.tick c) (t.tick (mirror c)) ∧
    OppositeStep s._count t._count (s.tick c)._count (t.tick (mirror c))._count := by
  obtain ⟨hmode, hstd, -⟩ := h
  obtain ⟨hp, ht⟩ := hstd hm
  have htm : t._mode = MODE_STANDARD := hmode.trans hm
  have hfacts := std_mirror s._old_AB hp c hc
  by_cases hne : c = s._old_AB
  · have hmc : mirror c = t._old_AB := by rw [ht, hne]
    rw [hne, tick_standard_same s hm, ← hne, hmc, tick_standard_same t htm]
    exact ⟨⟨hmode, fun _ => ⟨hp, ht⟩, fun hn => absurd hm hn⟩, Or.inl ⟨rfl, rfl⟩⟩
  · have hmne : mirror c ≠ t._old_AB := by
      rw [ht]; exact fun hh => hne (hfacts.2.2 hh)
    rw [tick_standard_ne s hm c hne, tick_standard_ne t htm (mirror c) hmne]
    refine ⟨⟨hmode, fun _ => ⟨hc, rfl⟩, fun hn => absurd hm hn⟩, Or.inr ?_⟩
    refine ⟨SLD_STD_STATES.getD (((s._old_AB <<< 2) ||| c) &&& 0x0F) 0, ?_, ?_, rfl, ?_⟩
    · rcases std_table_values _ (land15_lt ((s._old_AB <<< 2) ||| c)) with h | h | h <;>
        rw [h] <;> decide
    · rcases std_table_values _ (land15_lt ((s._old_AB <<< 2) ||| c)) with h | h | h <;>
        rw [h] <;> decide
    · show wrap8 (t._count + _) = _
      rw [ht, hfacts.1]
      rfl

theorem mirror_step_buxton (s t : SLDencodeur) (h : MirrorEngine s t)
    (hm : s._mode ≠ MODE_STANDARD) (c : Nat) (hc : c < 4) :
    MirrorEngine (s.tick c) (t.tick (mirror c)) ∧
    OppositeStep s._count t._count (s.tick c)._count (t.tick (mirror c))._count := by
  obtain ⟨hmode, -, hbux⟩ := h
  obtain ⟨hst, hts⟩ := hbux hm
  have htm : t._mode ≠ MODE_STANDARD := by rw [hmode]; exact hm
  have hsym := buxton_mirror s._mode hm s._state c hst hc
  have hexcl := buxton_flags_exclusive_mode s._mode hm s._state c hst hc
  have hs1 : (s.tick c)._mode = s._mode := (tick_fixed s c).2
  have ht1 : (t.tick (mirror c))._mode = t._mode := (tick_fixed t (mirror c)).2
  constructor
  · refine ⟨by rw [hs1, ht1, hmode], fun hh => absurd (hs1 ▸ hh) hm, fun _ => ?_⟩
    rw [hs1, tick_buxton_state s hm c, tick_buxton_state t htm (mirror c), hmode, hts]
    exact ⟨nextState_lt _ hm _ _ hst hc, hsym.1⟩
  · rw [tick_buxton_count s hm c, tick_buxton_count t htm (mirror c), hmode, hts]
    have hcw := hsym.2.1
    have hccw := hsym.2.2
    by_cases h1 : buxtonRes s._mode s._state c &&& DIR_CW = 0
    · by_cases h2 : buxtonRes s._mode s._state c &&& DIR_CCW = 0
      · simp only [h1, h2, bne_self_eq_false, bne_eq_false_iff_eq] at hcw hccw
        simp only [h1, h2, hcw, hccw, ne_eq, not_true_eq_false, if_false]
        exact Or.inl ⟨rfl, rfl⟩
      · have h2b : (buxtonRes s._mode s._state c &&& DIR_CCW != 0) = true := by
          simpa using h2
        rw [h2b] at hcw
        have hcw2 : buxtonRes s._mode (mirrorState s._mode s._state) (mirror c) &&& DIR_CW ≠ 0 := by
          simpa using hcw
        simp only [h1, h2, hcw2, ne_eq, not_true_eq_false, not_false_eq_true, if_false, if_true]
        exact Or.inr ⟨-1, by decide, by decide, rfl, by rw [Int.sub_neg]⟩
    · have h2 : buxtonRes s._mode s._state c &&& DIR_CCW = 0 := by
        by_contra hh
        exact hexcl ⟨h1, hh⟩
      have h1b : (buxtonRes s._mode s._state c &&& DIR_CW != 0) = true := by
        simpa using h1
      rw [h1b] at hccw
      simp only [h2, bne_self_eq_false, bne_eq_false_iff_eq] at hcw
      have hccw2 : buxtonRes s._mode (mirrorState s._mode s._state) (mirror c) &&& DIR_CCW ≠ 0 := by
        simpa using hccw
      simp only [h1, hcw, hccw2, ne_eq, not_true_eq_false, not_false_eq_true, if_false, if_true]
      exact Or.inr ⟨1, by decide, by decide, rfl, rfl⟩

theorem mirror_step (s t : SLDencodeur) (h : MirrorEngine s t) (c : Nat) (hc : c < 4) :
    MirrorEngine (s.tick c) (t.tick (mirror c)) ∧
    OppositeStep s._count t._count (s.tick c)._count (t.tick (mirror c))._count := by
  by_cases hm : s._mode = MODE_STANDARD
  · exact mirror_step_standard s t h hm c hc
  · exact mirror_step_buxton s t h hm c hc

theorem noOverflow_cons (s : SLDencodeur) (c : Nat) (rest : List Nat) :
    noOverflow s (c :: rest) = true ↔
      (-1 ≤ (s.tick c)._count - s._count ∧ (s.tick c)._count - s._count ≤ 1) ∧
      noOverflow (s.tick c) rest = true := by
  simp [noOverflow, countDeltas]

theorem mirror_drive_mod (codes : List Nat) (s t : SLDencodeur) (h : MirrorEngine s t)
    (hcodes : ∀ c ∈ codes, c < 4) (hlo : -128 ≤ s._count) (hhi : s._count ≤ 127)
    (ht : t._count = wrap8 (-s._count)) :
    (drive t (codes.map mirror))._count = wrap8 (-(drive s codes)._count) := by
  induction codes generalizing s t with
  | nil => exact ht
  | cons c rest ih =>
    have hstep := mirror_step s t h c (hcodes c (List.mem_cons_self _ _))
    rw [List.map_cons, drive_cons, drive_cons]
    apply ih (s.tick c) (t.tick (mirror c)) hstep.1
      (fun d hd => hcodes d (List.mem_cons_of_mem _ hd))
    · rcases hstep.2 with ⟨h1, -⟩ | ⟨d, hd1, hd2, h1, -⟩
      · rw [h1]; exact hlo
      · rw [h1]; unfold wrap8; omega
    · rcases hstep.2 with ⟨h1, -⟩ | ⟨d, hd1, hd2, h1, -⟩
      · rw [h1]; exact hhi
      · rw [h1]; unfold wrap8; omega
    · rcases hstep.2 with ⟨h1, h2⟩ | ⟨d, hd1, hd2, h1, h2⟩
      · rw [h1, h2]; exact ht
      · rw [h1, h2, ht]; unfold wrap8; omega

theorem mirror_drive_exact (codes : List Nat) (s t : SLDencodeur) (h : MirrorEngine s t)
    (hcodes : ∀ c ∈ codes, c < 4) (ht : t._count = -s._count)
    (hs : noOverflow s codes = true) (hm : noOverflow t (codes.map mirror) = true) :
    (drive t (codes.map mirror))._count = -(drive s codes)._count := by
  induction codes generalizing s t with
  | nil => exact ht
  | cons c rest ih =>
    have hstep := mirror_step s t h c (hcodes c (List.mem_cons_self _ _))
    rw [List.map_cons] at hm
    rw [noOverflow_cons] at hs hm
    rw [List.map_cons, drive_cons, drive_cons]
    apply ih (s.tick c) (t.tick (mirror c)) hstep.1
      (fun d hd => hcodes d (List.mem_cons_of_mem _ hd)) _ hs.2 hm.2
    have hs1 := hs.1
    have hm1 := hm.1
    rcases hstep.2 with ⟨h1, h2⟩ | ⟨d, hd1, hd2, h1, h2⟩
    · rw [h1, h2]; exact ht
    · rw [h1] at hs1
      rw [h2] at hm1
      rw [h1, h2]
      rw [ht] at hm1 ⊢
      unfold wrap8 at hs1 hm1 ⊢
      omega

/-- C20. For every mode and every sequence of codes in 0..3 applied to an
instance with `_count = 0`, `_state = 0` and previous code `p = _old_AB` in
0..3: the instance that starts from `mirror p` and is driven by the mirrored
codes reaches the `int8_t` negation of the counter the original reaches; when
no `tick` of either run overflows the counter, the mirrored run reaches
exactly the negation. -/
theorem mirror_reverses_count (s : SLDencodeur) (hc : s._count = 0) (hst : s._state = 0)
    (hp : s._old_AB < 4) (codes : List Nat) (hcodes : ∀ c ∈ codes, c < 4) :
    (drive { s with _old_AB := mirror s._old_AB } (codes.map mirror))._count =
      wrap8 (-(drive s codes)._count) ∧
    (noOverflow s codes = true →
      noOverflow { s with _old_AB := mirror s._old_AB } (codes.map mirror) = true →
      (drive { s with _old_AB := mirror s._old_AB } (codes.map mirror))._count =
        -(drive s codes)._count) := by
  have hrows : 0 < buxtonRows s._mode := by cases s._mode <;> decide
  have hms : mirrorState s._mode 0 = 0 := by cases s._mode <;> rfl
  have he : MirrorEngine s { s with _old_AB := mirror s._old_AB } :=
    ⟨rfl, fun _ => ⟨hp, rfl⟩, fun _ => ⟨by rw [hst]; exact hrows, by rw [hst, hms]⟩⟩
  constructor
  · exact mirror_drive_mod codes s _ he hcodes (by rw [hc]; decide) (by rw [hc]; decide)
      (by simp [hc, wrap8])
  · intro h1 h2
    exact mirror_drive_exact codes s _ he hcodes (by simp [hc]) h1 h2

/-- Witness for C20: Standard mode from previous code 01, codes 11, 10, 00,
01, 11 (counter +5); the mirrored run from 10 reaches -5. -/
theorem mirror_reverses_count_witness :
    (drive (SLDencodeur.mk 2 3 1 1 0 MODE_STANDARD 0 0) [3, 2, 0, 1, 3])._count = 5 ∧
    (drive (SLDencodeur.mk 2 3 1 (mirror 1) 0 MODE_STANDARD 0 0)
      ([3, 2, 0, 1, 3].map mirror))._count =
      -(drive (SLDencodeur.mk 2 3 1 1 0 MODE_STANDARD 0 0) [3, 2, 0, 1, 3])._count :=
  ⟨by decide,
    (mirror_reverses_count (SLDencodeur.mk 2 3 1 1 0 MODE_STANDARD 0 0) rfl rfl (by decide)
      [3, 2, 0, 1, 3] (by decide)).2 (by decide) (by decide)⟩

end SLD
